import Mathlib

/-!
Shallow embedding of the process-discovery-and-termination subsystem of
vscode-quick-serve (`src/processKiller.ts`, class `ProcessKiller`).

Modelling conventions:
* All shell interaction in the source goes through `execAsync(cmdString)`,
  which resolves with stdout or rejects (nonzero exit / timeout).  We model
  the outside world as an oracle `SysEnv.exec : String → Except String String`
  keyed by the exact command string the source builds, plus the platform,
  the tool's own pid/ppid, the `SHELL` environment variable and the WHATWG
  `URL` platform API (`SysEnv.urlParse`).
* A TypeScript function that can reject is modelled as returning
  `Except String α`; a `try { … } catch { … }` is a `match` on that value.
* JavaScript machine strings are Lean `String`s; all character-level work is
  done on `List Char` so that concrete instances reduce in the kernel.
* `getDescendants` recurses on live process-table answers and is unbounded in
  the source; we add an explicit `fuel : Nat` argument and quantify theorems
  over it.
* Functions that signal processes additionally return a trace (`List Ev`) of
  observable events: every probed `pgrep` pattern, every batch of pids passed
  to a `kill`/`taskkill` invocation, and every entry into the port-based
  strategy.  These correspond one-to-one to the log lines / exec calls of the
  source and are what the spec's claims quantify over.
-/

namespace QuickServe

instance : DecidableEq (Except String Bool) := fun a b =>
  match a, b with
  | .ok x, .ok y =>
    if h : x = y then isTrue (by rw [h]) else isFalse (by simp [h])
  | .error x, .error y =>
    if h : x = y then isTrue (by rw [h]) else isFalse (by simp [h])
  | .ok _, .error _ => isFalse (by simp)
  | .error _, .ok _ => isFalse (by simp)

/-- The JavaScript `\s` character class (whitespace as used by `RegExp` and
`String.prototype.trim`). -/
def isJsSpace (c : Char) : Bool :=
  c == ' ' || c == '\t' || c == '\n' || c == '\r' ||
  c == Char.ofNat 11 || c == Char.ofNat 12 ||
  c == Char.ofNat 0xa0 || c == Char.ofNat 0x1680 ||
  (0x2000 ≤ c.toNat && c.toNat ≤ 0x200a) ||
  c == Char.ofNat 0x2028 || c == Char.ofNat 0x2029 ||
  c == Char.ofNat 0x202f || c == Char.ofNat 0x205f ||
  c == Char.ofNat 0x3000 || c == Char.ofNat 0xfeff

/-- Characters NOT matched by the JavaScript regex `.` (line terminators). -/
def isDotNL (c : Char) : Bool :=
  c == '\n' || c == '\r' || c == Char.ofNat 0x2028 || c == Char.ofNat 0x2029

/-- The single-quote character (written via its code point to keep string
literals quote-free). -/
def sqChar : Char := Char.ofNat 39

/-- The backtick character. -/
def bqChar : Char := Char.ofNat 96

/-- The double-quote character. -/
def dqChar : Char := '"'

/-- `trim` on a character list: drop JS whitespace from both ends. -/
def trimL (l : List Char) : List Char :=
  ((l.dropWhile isJsSpace).reverse.dropWhile isJsSpace).reverse

/-- JavaScript `String.prototype.trim`. -/
def trimS (s : String) : String := String.mk (trimL s.toList)

/-- Split a character list at each newline character, like JS `split('\n')`. -/
def splitNL : List Char → List (List Char)
  | [] => [[]]
  | c :: t =>
    if c = '\n' then [] :: splitNL t
    else
      match splitNL t with
      | h :: r => (c :: h) :: r
      | [] => [[c]]

/-- `stdout.trim().split('\n').filter(Boolean)`: the pid-list parsing used for
`pgrep` and `lsof` output. -/
def parseLines (out : String) : List String :=
  ((splitNL (trimL out.toList)).map String.mk).filter (fun x => x ≠ "")

/-- Does `needle` occur at the head of `hay`? -/
def strHasPre : List Char → List Char → Bool
  | [], _ => true
  | _ :: _, [] => false
  | a :: as, b :: bs => a == b && strHasPre as bs

/-- Does `needle` occur anywhere in `hay` (JS `/substr/.test(s)`)? -/
def hasSubstrL (needle : List Char) : List Char → Bool
  | [] => strHasPre needle []
  | l@(_ :: t) => strHasPre needle l || hasSubstrL needle t

/-- Substring test on strings. -/
def hasSubstr (s needle : String) : Bool := hasSubstrL needle.toList s.toList

/-- Parse a decimal digit string. -/
def natOfDigits (l : List Char) : Option Nat :=
  if l ≠ [] ∧ l.all Char.isDigit then
    some (l.foldl (fun a c => a * 10 + (c.toNat - 48)) 0)
  else none

/-- JavaScript `Number(s)` restricted to the naturals: whitespace-only input
gives `0`, a decimal digit string parses, anything else is `NaN` (`none`).
(The source only ever feeds this pid/ppid text from `ps`/`pgrep`.) -/
def jsNumber (s : String) : Option Nat :=
  let t := trimL s.toList
  if t = [] then some 0 else natOfDigits t

/-- `Array.prototype.join(sep)`. -/
def joinSep (sep : String) : List String → String
  | [] => ""
  | [x] => x
  | x :: r => x ++ sep ++ joinSep sep r

/-- `[...new Set(l)]`: deduplicate keeping first-occurrence order. -/
def jsSetDedup (l : List String) : List String :=
  l.foldl (fun acc x => if x ∈ acc then acc else acc ++ [x]) []

/-- Replace every single quote by `'\''` (the body of `shellEscape`). -/
def escQuoteL (l : List Char) : List Char :=
  l.flatMap (fun c => if c = sqChar then [sqChar, '\\', sqChar, sqChar] else [c])

/-- `ProcessKiller.shellEscape`: wrap in single quotes, escaping embedded
single quotes. -/
def shellEscape (s : String) : String :=
  String.mk (sqChar :: (escQuoteL s.toList ++ [sqChar]))

/-- `l.trim().split(/\s+/).pop()`: for a trimmed line this is the trailing
maximal run of non-whitespace characters (empty when the line is blank, which
JS renders as `''.split(/\s+/) = ['']` whose pop is `""`). -/
def lastTok (line : String) : String :=
  let t := trimL line.toList
  String.mk ((t.reverse.takeWhile (fun c => ¬ isJsSpace c)).reverse)

/-- `process.platform` values the source distinguishes. -/
inductive Platform where
  | win32
  | linux
  | darwin
  | otherUnix
deriving DecidableEq, Repr

/-- The result of the WHATWG `new URL(url)` platform API, as consumed by the
source: `parsed.protocol` (scheme with trailing colon) and `parsed.port`
(`none` models the empty port string; WHATWG guarantees a numeric port
otherwise). -/
structure UrlParts where
  protocol : String
  port : Option Nat
deriving DecidableEq, Repr

/-- The outside world: platform facts plus an oracle for `execAsync` keyed by
the exact command string the source interpolates, and the `URL` parser. -/
structure SysEnv where
  platform : Platform
  pid : Nat
  ppid : Nat
  shellEnv : Option String
  exec : String → Except String String
  urlParse : String → Option UrlParts

/-- The `{startCommand, url}` record `kill` receives. -/
structure Entry where
  startCommand : String
  url : String
deriving DecidableEq, Repr

/-- Resolver output `{cwd?, cmd}`. -/
structure ParsedCmd where
  cwd : Option String
  cmd : String
deriving DecidableEq, Repr

/-- Observable events of a kill operation: `probe p` = `pgrepWithCwd` ran
`pgrep -f p`; `sig pids` = a batch termination command (`kill …` or a
`taskkill` per pid) was issued for `pids`; `portKill p` = the port-based
strategy (`killByPort`) was entered for port `p`. -/
inductive Ev where
  | probe : String → Ev
  | sig : List String → Ev
  | portKill : Nat → Ev
deriving DecidableEq, Repr

/-- JS truthiness of `cwd` (a `string | undefined`): present and nonempty. -/
def truthyStr : Option String → Option String
  | some s => if s = "" then none else some s
  | none => none

/-! ### The `cd`-prefix regex

`parseCdPrefix` matches `command` against

    /^cd\s+("[^"]+"|'[^']+'|\S+)\s*(?:&&|;)\s*(.+)$/

We implement exact JavaScript backtracking semantics for this pattern on
`List Char`.  `dotPlusEnd` is the trailing `\s*(.+)$` (with `.` excluding
line terminators), `sepCont` is `\s*(?:&&|;)` followed by `dotPlusEnd`, and
the three group-1 alternatives are tried in order with full backtracking. -/

/-- Trailing `\s*(.+)$`: returns the text captured by `(.+)`. -/
def dotPlusEnd (w : List Char) : Option (List Char) :=
  let r := w.dropWhile isJsSpace
  if r = [] then
    match w.getLast? with
    | some c => if isDotNL c then none else some [c]
    | none => none
  else if r.any isDotNL then none else some r

/-- `\s*(?:&&|;)` then `\s*(.+)$`. -/
def sepCont (v : List Char) : Option (List Char) :=
  match v.dropWhile isJsSpace with
  | '&' :: '&' :: w => dotPlusEnd w
  | ';' :: w => dotPlusEnd w
  | _ => none

/-- Generic quoted group-1 alternative (`"[^"]+"` with `q := dqChar`,
`'[^']+'` with `q := sqChar`): an opening quote, a nonempty run of
non-quote characters, the closing quote, then the separator continuation.
Returns (group 1 including quotes, group 2). -/
def quoteBranch (q : Char) (t : List Char) : Option (List Char × List Char) :=
  if strHasPre [q] t then
    if (t.drop 1).takeWhile (fun x => x ≠ q) = [] then none
    else
      if strHasPre [q]
          ((t.drop 1).drop ((t.drop 1).takeWhile (fun x => x ≠ q)).length) then
        (sepCont (((t.drop 1).drop
            ((t.drop 1).takeWhile (fun x => x ≠ q)).length).drop 1)).map
          (fun g2 => (q :: ((t.drop 1).takeWhile (fun x => x ≠ q) ++ [q]), g2))
      else none
  else none

/-- Group-1 alternative `"[^"]+"`. -/
def dqBranch (t : List Char) : Option (List Char × List Char) := quoteBranch dqChar t

/-- Group-1 alternative `'[^']+'`. -/
def sqBranch (t : List Char) : Option (List Char × List Char) := quoteBranch sqChar t

/-- Group-1 alternative `\S+` with greedy backtracking: try the longest
non-space run first, shrinking until the continuation matches. -/
def bareGo (t : List Char) : Nat → Option (List Char × List Char)
  | 0 => none
  | k + 1 =>
    match sepCont (t.drop (k + 1)) with
    | some g2 => some (t.take (k + 1), g2)
    | none => bareGo t k

/-- Group-1 alternative `\S+`. -/
def bareBranch (t : List Char) : Option (List Char × List Char) :=
  bareGo t ((t.takeWhile (fun c => ¬ isJsSpace c)).length)

/-- Alternation `("[^"]+"|'[^']+'|\S+)` followed by the separator and tail. -/
def cdTail (t : List Char) : Option (List Char × List Char) :=
  match dqBranch t with
  | some r => some r
  | none =>
    match sqBranch t with
    | some r => some r
    | none => bareBranch t

/-- The anchored match `^cd\s+(…)\s*(?:&&|;)\s*(.+)$`; returns
(group 1, group 2) on success. -/
def cdMatch (s : List Char) : Option (List Char × List Char) :=
  if strHasPre ['c', 'd'] s then
    if (s.drop 2).takeWhile isJsSpace = [] then none
    else cdTail ((s.drop 2).dropWhile isJsSpace)
  else none

/-- Drop a leading quote character (single or double). -/
def stripLeadQuote (g : List Char) : List Char :=
  if strHasPre [sqChar] g ∨ strHasPre [dqChar] g then g.drop 1 else g

/-- Drop a trailing quote character (single or double). -/
def stripTrailQuote (g : List Char) : List Char :=
  match g.getLast? with
  | some c => if c = sqChar ∨ c = dqChar then g.dropLast else g
  | none => g

/-- `match[1].replace(/^['"]|['"]$/g, '')`: strip one leading and one trailing
quote character (single or double, independently). -/
def stripQuotes (g : List Char) : List Char :=
  stripTrailQuote (stripLeadQuote g)

/-- `ProcessKiller.parseCdPrefix`. -/
def parseCdPrefix (command : String) : ParsedCmd :=
  match cdMatch command.toList with
  | some (g1, g2) => ⟨some (String.mk (stripQuotes g1)), trimS (String.mk g2)⟩
  | none => ⟨none, command⟩

/-! ### Splitting compound commands

`splitCommandSegments` computes `cmd.split(/\s*(?:&&|;)\s*/)`, trims, drops
falsy pieces and reverses.  JavaScript `split` scans left to right for the
first position where the separator regex matches; the regex matches at a
position iff skipping whitespace there lands on `&&` or `;`, and then greedily
consumes trailing whitespace. -/

/-- Does the separator regex `\s*(?:&&|;)\s*` match starting at this position?
If so, return the remainder after the (greedy) match. -/
def sepAfter (l : List Char) : Option (List Char) :=
  let d := l.dropWhile isJsSpace
  if strHasPre ['&', '&'] d then some ((d.drop 2).dropWhile isJsSpace)
  else if strHasPre [';'] d then some ((d.drop 1).dropWhile isJsSpace)
  else none

/-- Scan for the leftmost separator match: returns (piece before it,
remainder after it). -/
def findSep : List Char → Option (List Char × List Char)
  | [] => none
  | c :: t =>
    match sepAfter (c :: t) with
    | some rem => some ([], rem)
    | none =>
      match findSep t with
      | some (p, rem) => some (c :: p, rem)
      | none => none

/-- Fuel-driven splitting loop (the fuel is only a structural-recursion
device; `splitOnSeps` always supplies enough). -/
def splitOnSepsF : Nat → List Char → List (List Char)
  | 0, l => [l]
  | f + 1, l =>
    match findSep l with
    | none => [l]
    | some (p, rem) => p :: splitOnSepsF f rem

/-- `cmd.split(/\s*(?:&&|;)\s*/)` as a list of character lists. -/
def splitOnSeps (l : List Char) : List (List Char) :=
  splitOnSepsF (l.length + 1) l

/-- `ProcessKiller.splitCommandSegments`: split a compound command on
`&&` / `;`, trim each piece, drop empties, and reverse (so the last-written
segment is probed first); `[]` when there is at most one piece. -/
def splitCommandSegments (cmd : String) : List String :=
  let parts :=
    ((splitOnSeps cmd.toList).map (fun p => trimS (String.mk p))).filter
      (fun s => s ≠ "")
  if parts.length ≤ 1 then [] else parts.reverse

/-- The ordered candidate pattern list the command strategy probes: the whole
command first, then the reversed segments (`killByCommand` tries the full
command, then each element of `splitCommandSegments` in order). -/
def candidatePatterns (cmd : String) : List String :=
  cmd :: splitCommandSegments cmd

/-! ### Shell alias / function resolution (`resolveCommand`)

The alias regex is `/is (?:aliased to|an alias for)\s+[`']?(.+?)[`']?\s*$/`:
leftmost literal, then greedy `\s+`, optional opening backtick/quote, a lazy
group of `.` characters, optional closing quote, trailing whitespace, end. -/

/-- `[`']?\s*$`: can the tail after the lazy group complete the match? -/
def aliasTail2 (r : List Char) : Bool :=
  (match r with
   | c :: t => (c == bqChar || c == sqChar) && t.all isJsSpace
   | [] => false) ||
  r.all isJsSpace

/-- The lazy group `(.+?)`: grow the capture one character at a time (shortest
first), checking the tail after each extension; `.` rejects line
terminators. -/
def aliasLazy : List Char → List Char → Option (List Char)
  | acc, rest =>
    if aliasTail2 rest then some acc.reverse
    else
      match rest with
      | c :: r2 => if isDotNL c then none else aliasLazy (c :: acc) r2
      | [] => none

/-- Entry into the lazy group: it must capture at least one character. -/
def aliasLazyStart (w : List Char) : Option (List Char) :=
  match w with
  | c :: r => if isDotNL c then none else aliasLazy [c] r
  | [] => none

/-- Optional opening `[`']?` (greedy: consume first, fall back to not). -/
def aliasQ1 (v : List Char) : Option (List Char) :=
  match v with
  | c :: r =>
    if c == bqChar || c == sqChar then
      match aliasLazyStart r with
      | some g => some g
      | none => aliasLazyStart v
    else aliasLazyStart v
  | [] => none

/-- `\s+` (greedy, ≥ 1, with backtracking): try dropping `k` spaces for `k`
from the maximal run down to 1. -/
def aliasSp (u : List Char) : Nat → Option (List Char)
  | 0 => none
  | k + 1 =>
    match aliasQ1 (u.drop (k + 1)) with
    | some g => some g
    | none => aliasSp u k

/-- Try the full alias-tail starting right after the literal. -/
def aliasAfterLit (u : List Char) : Option (List Char) :=
  aliasSp u (u.takeWhile isJsSpace).length

/-- Try the alias pattern at this exact position (the two literal
alternatives in order). -/
def aliasMatchAt (l : List Char) : Option (List Char) :=
  if strHasPre "is aliased to".toList l then aliasAfterLit (l.drop 13)
  else if strHasPre "is an alias for".toList l then aliasAfterLit (l.drop 15)
  else none

/-- Leftmost match scan. -/
def aliasScan : List Char → Option (List Char)
  | [] => none
  | l@(_ :: t) =>
    match aliasMatchAt l with
    | some g => some g
    | none => aliasScan t

/-- `typeOutput.match(/is (?:aliased to|an alias for)\s+[`']?(.+?)[`']?\s*$/)`,
returning the captured expansion. -/
def aliasExtract (s : String) : Option String :=
  (aliasScan s.toList).map String.mk

/-- The skip regex for shell-function body lines:
`/^(?:cd |export |source |exit|return|\.|#|{|}|[\w_]+\s*\(\)|ensure_|git |chmod |mkdir )/`. -/
def skipLine (s : String) : Bool :=
  let l := s.toList
  strHasPre "cd ".toList l || strHasPre "export ".toList l ||
  strHasPre "source ".toList l || strHasPre "exit".toList l ||
  strHasPre "return".toList l || strHasPre ".".toList l ||
  strHasPre "#".toList l || strHasPre [Char.ofNat 123] l ||
  strHasPre [Char.ofNat 125] l ||
  (let w := l.takeWhile (fun c => c.isAlphanum || c == '_')
   w ≠ [] && strHasPre ['(', ')'] ((l.drop w.length).dropWhile isJsSpace)) ||
  strHasPre "ensure_".toList l || strHasPre "git ".toList l ||
  strHasPre "chmod ".toList l || strHasPre "mkdir ".toList l

/-- The setup regex `/uptodate|setup|install|bootstrap|migrate/i`. -/
def setupLine (s : String) : Bool :=
  let low := String.mk (s.toList.map Char.toLower)
  hasSubstr low "uptodate" || hasSubstr low "setup" || hasSubstr low "install" ||
  hasSubstr low "bootstrap" || hasSubstr low "migrate"

/-- The regex word-character run `[\\w]+` (prefix). -/
def wordRun (l : List Char) : List Char :=
  l.takeWhile (fun c => c.isAlphanum || c == '_')

/-- The `\\S+` run (prefix). -/
def nonSpaceRun (v : List Char) : List Char :=
  v.takeWhile (fun x => ¬ isJsSpace x)

/-- After `[\\w]+=`: match `\\S+\\s+` and return the remainder. -/
def varRepVal (v : List Char) : Option (List Char) :=
  if nonSpaceRun v = [] then none
  else if (v.drop (nonSpaceRun v).length).takeWhile isJsSpace = [] then none
  else
    some ((v.drop (nonSpaceRun v).length).drop
      ((v.drop (nonSpaceRun v).length).takeWhile isJsSpace).length)

/-- One repetition of `[\\w]+=\\S+\\s+`; returns the remainder. -/
def varRep (l : List Char) : Option (List Char) :=
  if wordRun l = [] then none
  else if strHasPre ['='] (l.drop (wordRun l).length) then
    varRepVal ((l.drop (wordRun l).length).drop 1)
  else none

/-- Fuel-driven repetition muncher for `stripVars`. -/
def stripVarsF : Nat → List Char → List Char
  | 0, l => l
  | f + 1, l =>
    match varRep l with
    | none => l
    | some rem => stripVarsF f rem

/-- `l.replace(/^(?:[\\w]+=\\S+\\s+)+/, '')`: maximal-munch removal of leading
`VAR=val ` prefixes (identity when no repetition matches); each repetition
strictly shrinks the list, so `length + 1` fuel always suffices. -/
def stripVars (l : List Char) : List Char :=
  stripVarsF (l.length + 1) l

/-- The `map` step applied to shell-function body lines. -/
def stripVarPrefixS (s : String) : String := String.mk (stripVars s.toList)

/-- `process.env.SHELL || '/bin/bash'`. -/
def shellOf (env : SysEnv) : String :=
  match env.shellEnv with
  | some s => if s = "" then "/bin/bash" else s
  | none => "/bin/bash"

/-- The exact `type` query command string built by `resolveCommand`. -/
def typeQueryCmd (env : SysEnv) (command : String) : String :=
  shellOf env ++ " -ic " ++ String.mk [sqChar] ++ "type " ++ shellEscape command ++
    String.mk [sqChar] ++ " 2>/dev/null"

/-- The exact `which` query command string built by `resolveCommand`. -/
def whichQueryCmd (env : SysEnv) (command : String) : String :=
  shellOf env ++ " -ic " ++ String.mk [sqChar] ++ "which " ++ shellEscape command ++
    String.mk [sqChar] ++ " 2>/dev/null"

/-- The executable-looking lines extracted from a shell-function body:
`stdout.split('\n').map(trim).filter(Boolean)` filtered by the skip/setup
regexes and stripped of `VAR=val` prefixes. -/
def usableCmds (wout : String) : List String :=
  ((((splitNL wout.toList).map (fun l => trimS (String.mk l))).filter
      (fun l => l ≠ "")).filter
    (fun l => ¬ (skipLine l || setupLine l))).map stripVarPrefixS

/-- `ProcessKiller.resolveCommand`: resolve a bare command name through the
user's shell; `none` models `undefined` (resolution failed). -/
def resolveCommand (env : SysEnv) (command : String) : Option ParsedCmd :=
  match env.exec (typeQueryCmd env command) with
  | .error _ => none
  | .ok out =>
    match aliasExtract (trimS out) with
    | some expanded =>
      match truthyStr (parseCdPrefix expanded).cwd with
      | some _ => some (parseCdPrefix expanded)
      | none => some ⟨none, expanded⟩
    | none =>
      if hasSubstr (trimS out) "shell function" then
        match env.exec (whichQueryCmd env command) with
        | .error _ => none
        | .ok wout =>
          if usableCmds wout ≠ [] then some ⟨none, joinSep " && " (usableCmds wout)⟩
          else none
      else none

/-- `/^\S+$/.test(startCommand)`: a nonempty single token. -/
def isSingleToken (s : String) : Bool :=
  s.toList ≠ [] && s.toList.all (fun c => ¬ isJsSpace c)

/-- `ProcessKiller.parseStartCommand`. -/
def parseStartCommand (env : SysEnv) (startCommand : String) : ParsedCmd :=
  match truthyStr (parseCdPrefix startCommand).cwd with
  | some _ => parseCdPrefix startCommand
  | none =>
    if env.platform ≠ Platform.win32 ∧ isSingleToken startCommand then
      match resolveCommand env startCommand with
      | some r => r
      | none => ⟨none, startCommand⟩
    else ⟨none, startCommand⟩

/-- `ProcessKiller.parsePort`: explicit port, else 443 for `https:`, 80 for
`http:`, else `undefined`; invalid URLs are caught to `undefined`. -/
def parsePort (env : SysEnv) (url : String) : Option Nat :=
  match env.urlParse url with
  | none => none
  | some parsed =>
    match parsed.port with
    | some p => some p
    | none =>
      if parsed.protocol = "https:" then some 443
      else if parsed.protocol = "http:" then some 80
      else none

/-! ### The process terminator -/

/-- `ProcessKiller.getProcessCwd`: `readlink /proc/PID/cwd` on Linux, `lsof`
`-Fn` output scanning on Darwin, `undefined` elsewhere and on any error. -/
def getProcessCwd (env : SysEnv) (pid : String) : Option String :=
  match env.platform with
  | Platform.linux =>
    match env.exec ("readlink /proc/" ++ pid ++ "/cwd") with
    | .error _ => none
    | .ok out =>
      let t := trimL out.toList
      if t = [] then none else some (String.mk t)
  | Platform.darwin =>
    match env.exec ("lsof -a -d cwd -p " ++ pid ++ " -Fn 2>/dev/null") with
    | .error _ => none
    | .ok out =>
      ((splitNL out.toList).filter (fun l => strHasPre ['n', '/'] l)).head?.map
        (fun l => String.mk (l.drop 1))
  | _ => none

/-- The pids reported by `pgrep -f pattern` (empty on error — the
`try … catch` in `pgrepWithCwd`). -/
def pgrepPids (env : SysEnv) (pattern : String) : List String :=
  match env.exec ("pgrep -f " ++ shellEscape pattern) with
  | .error _ => []
  | .ok out => parseLines out

/-- The cwd filter predicate: `procCwd?.startsWith(cwd)`. -/
def cwdKeep (env : SysEnv) (cwd : String) (pid : String) : Bool :=
  match getProcessCwd env pid with
  | some procCwd => strHasPre cwd.toList procCwd.toList
  | none => false

/-- The cwd-filter step of `pgrepWithCwd`: with no (truthy) hint the matches
pass through; with a hint, keep the pids whose working directory starts with
it, and if that filter leaves nothing return `[]` rather than the unfiltered
matches. -/
def pgrepFilterCwd (env : SysEnv) (pids : List String) : Option String → List String
  | none => pids
  | some c => if pids.filter (cwdKeep env c) ≠ [] then pids.filter (cwdKeep env c) else []

/-- `ProcessKiller.pgrepWithCwd`: pgrep by pattern (empty on error), then the
cwd filter; also reports the probe event. -/
def pgrepWithCwd (env : SysEnv) (pattern : String) (cwd : Option String) :
    List String × List Ev :=
  (if pgrepPids env pattern = [] then []
   else pgrepFilterCwd env (pgrepPids env pattern) (truthyStr cwd),
   [Ev.probe pattern])

/-- `ProcessKiller.getDescendants`: recursively collect child pids via
`pgrep -P`; errors mean "no children".  `fuel` bounds the recursion that the
source leaves unbounded (process tables are finite and acyclic). -/
def getDescendants (env : SysEnv) : Nat → String → List String
  | 0, _ => []
  | fuel + 1, pid =>
    match env.exec ("pgrep -P " ++ pid) with
    | .error _ => []
    | .ok out =>
      (parseLines out).flatMap (fun child => child :: getDescendants env fuel child)

/-- The bounded ancestor walk of `getOwnPids` (20 iterations; a failing or
unparsable `ps` answer, or a ppid ≤ 1, stops the walk keeping what was
already collected). -/
def ownWalk (env : SysEnv) : Nat → Nat → List Nat
  | 0, _ => []
  | i + 1, current =>
    match env.exec ("ps -o ppid= -p " ++ toString current) with
    | .error _ => []
    | .ok out =>
      match jsNumber out with
      | none => []
      | some ppid => if ppid ≤ 1 then [] else ppid :: ownWalk env i ppid

/-- `ProcessKiller.getOwnPids`: own pid, parent pid (when truthy), then the
walked ancestor chain. -/
def getOwnPids (env : SysEnv) : List Nat :=
  env.pid :: ((if env.ppid ≠ 0 then [env.ppid] else []) ++ ownWalk env 20 env.pid)

/-- `ownPids.has(Number(pid))`. -/
def inOwn (own : List Nat) (pid : String) : Bool :=
  match jsNumber pid with
  | some n => n ∈ own
  | none => false

/-- The loop of `killSafePids`: for each matched pid not in the own set, add
it and its descendants (each descendant also filtered), deduplicating via the
`Set` insertion order. -/
def collectTargets (env : SysEnv) (fuel : Nat) (own : List Nat)
    (pids : List String) : List String :=
  pids.foldl
    (fun acc pid =>
      if inOwn own pid then acc
      else
        (pid :: (getDescendants env fuel pid).filter (fun c => ¬ inOwn own c)).foldl
          (fun a x => if x ∈ a then a else a ++ [x]) acc)
    []

/-- `ProcessKiller.killSafePids`: exclude the own process tree, expand
descendants, and `kill` the survivors in one batch.  The `kill` exec is NOT
wrapped in try/catch in the source, so its failure rejects. -/
def killSafePids (env : SysEnv) (fuel : Nat) (pids : List String) :
    Except String Bool × List Ev :=
  if collectTargets env fuel (getOwnPids env) pids ≠ [] then
    match env.exec ("kill " ++ joinSep " " (collectTargets env fuel (getOwnPids env) pids)) with
    | .ok _ => (.ok true, [Ev.sig (collectTargets env fuel (getOwnPids env) pids)])
    | .error e => (.error e, [Ev.sig (collectTargets env fuel (getOwnPids env) pids)])
  else (.ok false, [])

/-- The catch around `killSafePids` inside `killByPort` (Unix branch): a
rejection is caught and reported as `false`. -/
def portKillResult : Except String Bool × List Ev → Bool
  | (.ok b, _) => b
  | (.error _, _) => false

/-- The pid list parsed from the Windows `netstat` output. -/
def netstatPids (out : String) : List String :=
  jsSetDedup
    (((splitNL (trimL out.toList)).map (fun l => lastTok (String.mk l))).filter
      (fun x => x ≠ ""))

/-- `ProcessKiller.killByPort`: wholly wrapped in try/catch, so it never
rejects.  Windows: netstat parse + per-pid `taskkill` with ignored errors.
Unix: `lsof` listeners through the safe-kill pipeline; a rejection from
`killSafePids` is caught and reported as `false`. -/
def killByPort (env : SysEnv) (fuel : Nat) (port : Nat) : Bool × List Ev :=
  if env.platform = Platform.win32 then
    match env.exec ("netstat -ano | findstr :" ++ toString port ++
        " | findstr LISTENING") with
    | .error _ => (false, [Ev.portKill port])
    | .ok out =>
      (netstatPids out ≠ [],
        Ev.portKill port :: (netstatPids out).map (fun p => Ev.sig [p]))
  else
    match env.exec ("lsof -ti :" ++ toString port ++ " -sTCP:LISTEN") with
    | .error _ => (false, [Ev.portKill port])
    | .ok out =>
      (portKillResult (killSafePids env fuel (parseLines out)),
        Ev.portKill port :: (killSafePids env fuel (parseLines out)).2)

/-- The union (in loop order) of the pids matched by each reversed segment. -/
def commandAllPids (env : SysEnv) (cmd : String) (cwd : Option String) : List String :=
  ((splitCommandSegments cmd).map (fun p => (pgrepWithCwd env p cwd).1)).flatten

/-- The probe events of the segment loop. -/
def commandSegEvs (env : SysEnv) (cmd : String) (cwd : Option String) : List Ev :=
  ((splitCommandSegments cmd).map (fun p => (pgrepWithCwd env p cwd).2)).flatten

/-- `ProcessKiller.killByCommand`: probe the full command first; if it
matches, safe-kill those pids.  Otherwise collect pids from ALL reversed
segments, dedupe, and safe-kill the union. -/
def killByCommand (env : SysEnv) (fuel : Nat) (cmd : String) (cwd : Option String) :
    Except String Bool × List Ev :=
  if (pgrepWithCwd env cmd cwd).1 ≠ [] then
    ((killSafePids env fuel (pgrepWithCwd env cmd cwd).1).1,
      (pgrepWithCwd env cmd cwd).2 ++ (killSafePids env fuel (pgrepWithCwd env cmd cwd).1).2)
  else if splitCommandSegments cmd ≠ [] then
    if commandAllPids env cmd cwd ≠ [] then
      ((killSafePids env fuel (jsSetDedup (commandAllPids env cmd cwd))).1,
        ((pgrepWithCwd env cmd cwd).2 ++ commandSegEvs env cmd cwd) ++
          (killSafePids env fuel (jsSetDedup (commandAllPids env cmd cwd))).2)
    else (.ok false, (pgrepWithCwd env cmd cwd).2 ++ commandSegEvs env cmd cwd)
  else (.ok false, (pgrepWithCwd env cmd cwd).2)

/-- Strategy 2 of `kill`, applied to the outcome of strategy 1: on `false`,
parse the port and fall back to `killByPort` unless the port is falsy, 80 or
443; rejections and successes of strategy 1 pass through. -/
def killStrat2 (env : SysEnv) (fuel : Nat) (entry : Entry) :
    Except String Bool × List Ev → Except String Bool × List Ev
  | (.error e, evs) => (.error e, evs)
  | (.ok true, evs) => (.ok true, evs)
  | (.ok false, evs) =>
    match parsePort env entry.url with
    | some port =>
      if port ≠ 0 ∧ port ≠ 80 ∧ port ≠ 443 then
        (.ok (killByPort env fuel port).1, evs ++ (killByPort env fuel port).2)
      else (.ok false, evs)
    | none => (.ok false, evs)

/-- `ProcessKiller.kill`: resolver, then the command-pattern strategy (skipped
on Windows), then the port-based fallback (skipped for falsy ports and for
80/443). -/
def kill (env : SysEnv) (fuel : Nat) (entry : Entry) : Except String Bool × List Ev :=
  killStrat2 env fuel entry
    (if env.platform ≠ Platform.win32 then
      killByCommand env fuel (parseStartCommand env entry.startCommand).cmd
        (parseStartCommand env entry.startCommand).cwd
    else (.ok false, []))

/-! ### Observables -/

/-- All pids appearing in termination batches of an event trace. -/
def signaledPids (evs : List Ev) : List String :=
  (evs.filterMap (fun e =>
    match e with
    | Ev.sig l => some l
    | _ => none)).flatten

/-- The patterns probed (in order) in an event trace. -/
def probeList (evs : List Ev) : List String :=
  evs.filterMap (fun e =>
    match e with
    | Ev.probe p => some p
    | _ => none)

/-- Modelled from the spec's words (claim C5): a working directory counts as
matching the hint when it is the hint itself or a subdirectory of it. -/
def specHintOrSubdir (hint c : String) : Bool :=
  c = hint || strHasPre (hint ++ "/").toList c.toList

/-! ### Concrete environments used by counterexamples and witnesses -/

/-- Linux environment where `pgrep` finds pid 4242 for the pattern
`sleep 99`, that process has no children, the ancestor walk fails, and the
final `kill 4242` exits nonzero (e.g. the process died in between). -/
def envC1 : SysEnv where
  platform := Platform.linux
  pid := 9000
  ppid := 9001
  shellEnv := none
  exec := fun c =>
    if c = "pgrep -f " ++ shellEscape "sleep 99" then .ok "4242\n"
    else .error "exec failed"
  urlParse := fun u =>
    if u = "http://localhost:3000" then some ⟨"http:", some 3000⟩ else none

/-- The entry used with `envC1`. -/
def entryC1 : Entry := ⟨"sleep 99", "http://localhost:3000"⟩

/-- Windows environment whose own pid 1000 is listening on port 3000. -/
def envC2 : SysEnv where
  platform := Platform.win32
  pid := 1000
  ppid := 0
  shellEnv := none
  exec := fun c =>
    if c = "netstat -ano | findstr :3000 | findstr LISTENING" then
      .ok "  TCP 0.0.0.0:3000 0.0.0.0:0 LISTENING 1000\n"
    else .error "exec failed"
  urlParse := fun u =>
    if u = "http://localhost:3000" then some ⟨"http:", some 3000⟩ else none

/-- The entry used with `envC2`. -/
def entryC2 : Entry := ⟨"npm run dev", "http://localhost:3000"⟩

/-- Linux environment for C4: the full compound pattern matches nothing, but
segment `beta` matches pid 200 and segment `alpha` matches pid 100; neither
has children; the batch kill succeeds. -/
def envC4 : SysEnv where
  platform := Platform.linux
  pid := 900
  ppid := 0
  shellEnv := none
  exec := fun c =>
    if c = "pgrep -f " ++ shellEscape "beta" then .ok "200\n"
    else if c = "pgrep -f " ++ shellEscape "alpha" then .ok "100\n"
    else if c = "kill 200 100" then .ok ""
    else .error "exec failed"
  urlParse := fun _ => none

/-- Linux environment for C5: pattern `webpack` matches pid 300 whose working
directory `/application` shares the string prefix `/app` without being a
subdirectory of it. -/
def envC5 : SysEnv where
  platform := Platform.linux
  pid := 9000
  ppid := 0
  shellEnv := none
  exec := fun c =>
    if c = "pgrep -f " ++ shellEscape "webpack" then .ok "300\n"
    else if c = "readlink /proc/300/cwd" then .ok "/application\n"
    else .error "exec failed"
  urlParse := fun _ => none

/-- Environment for C6/C3 witnesses: pattern `webpack` matches pid 300 whose
working directory `/elsewhere` fails the `/app` hint. -/
def envC6 : SysEnv where
  platform := Platform.linux
  pid := 9000
  ppid := 0
  shellEnv := none
  exec := fun c =>
    if c = "pgrep -f " ++ shellEscape "webpack" then .ok "300\n"
    else if c = "readlink /proc/300/cwd" then .ok "/elsewhere\n"
    else .error "exec failed"
  urlParse := fun u =>
    if u = "https://app.local" then some ⟨"https:", none⟩ else none

/-- The entry used with `envC6` for the C3 witness: an https URL with no
explicit port, and a start command matching no process. -/
def entryC3 : Entry := ⟨"npm run dev", "https://app.local"⟩

/-! ### Trace lemmas for the strategy layers -/

/-! ### Claim theorems -/

/-- The resolution-failure conditions of claim C9: the shell `type` query
rejects (error or timeout), or its output names neither an alias nor a shell
function, or the `which` query for a function body rejects or yields no
usable line. -/
def resolutionFails (env : SysEnv) (s : String) : Prop :=
  match env.exec (typeQueryCmd env s) with
  | .error _ => True
  | .ok out =>
    aliasExtract (trimS out) = none ∧
      (hasSubstr (trimS out) "shell function" = false ∨
        (match env.exec (whichQueryCmd env s) with
         | .error _ => True
         | .ok wout => usableCmds wout = []))

/-- Environment whose shell is entirely unavailable: every exec rejects. -/
def envC9 : SysEnv where
  platform := Platform.linux
  pid := 9000
  ppid := 0
  shellEnv := none
  exec := fun _ => .error "spawn failed"
  urlParse := fun _ => none

/-! ### Split-machinery lemmas for C8 -/

/-- A plain segment string: nonempty, free of the separator characters, and
neither starting nor ending in whitespace (i.e. `trim`-fixed). -/
def segChars (x : String) : Prop :=
  x.toList ≠ [] ∧ (∀ c ∈ x.toList, c ≠ '&' ∧ c ≠ ';') ∧
  (∀ c, x.toList.head? = some c → isJsSpace c = false) ∧
  (∀ c, x.toList.getLast? = some c → isJsSpace c = false)

/-- A whitespace-only string. -/
def spaceChars (w : String) : Prop := ∀ c ∈ w.toList, isJsSpace c = true

/-! ### Regex lemmas for C7 -/

theorem strHasPre_nil (l : List Char) : strHasPre [] l = true := rfl

theorem strHasPre_cons_nil (a : Char) (as : List Char) :
    strHasPre (a :: as) [] = false := rfl

theorem strHasPre_cons_cons (a b : Char) (as bs : List Char) :
    strHasPre (a :: as) (b :: bs) = ((a == b) && strHasPre as bs) := rfl

theorem strHasPre_length_le :
    ∀ {pre l : List Char}, strHasPre pre l = true → pre.length ≤ l.length := by
  intro pre
  induction pre with
  | nil => intro l _; simp
  | cons a as ih =>
    intro l h
    cases l with
    | nil => exact absurd h (by simp [strHasPre_cons_nil])
    | cons b bs =>
      rw [strHasPre_cons_cons] at h
      have := ih (Bool.and_elim_right h)
      simp only [List.length_cons]
      omega

theorem findSep_cons (c : Char) (t : List Char) :
    findSep (c :: t) =
      match sepAfter (c :: t) with
      | some rem => some ([], rem)
      | none =>
        match findSep t with
        | some (p, rem) => some (c :: p, rem)
        | none => none := rfl

theorem sepAfter_length_lt {l rem : List Char} (h : sepAfter l = some rem) :
    rem.length < l.length := by
  have hdw : (l.dropWhile isJsSpace).length ≤ l.length :=
    (List.dropWhile_sublist _).length_le
  unfold sepAfter at h
  set d := l.dropWhile isJsSpace with hd
  by_cases h1 : strHasPre ['&', '&'] d = true
  · rw [if_pos h1] at h
    obtain rfl : (d.drop 2).dropWhile isJsSpace = rem := Option.some.inj h
    have h2 : ((d.drop 2).dropWhile isJsSpace).length ≤ d.length - 2 := by
      have := (List.dropWhile_sublist (l := d.drop 2) isJsSpace).length_le
      simpa using this
    have h3 : 2 ≤ d.length := strHasPre_length_le h1
    omega
  · rw [if_neg h1] at h
    by_cases h2 : strHasPre [';'] d = true
    · rw [if_pos h2] at h
      obtain rfl : (d.drop 1).dropWhile isJsSpace = rem := Option.some.inj h
      have h3 : ((d.drop 1).dropWhile isJsSpace).length ≤ d.length - 1 := by
        have := (List.dropWhile_sublist (l := d.drop 1) isJsSpace).length_le
        simpa using this
      have h4 : 1 ≤ d.length := strHasPre_length_le h2
      omega
    · rw [if_neg h2] at h
      exact absurd h (by simp)

theorem findSep_length_lt :
    ∀ {l p rem : List Char}, findSep l = some (p, rem) → rem.length < l.length := by
  intro l
  induction l with
  | nil => intro p rem h; exact Option.noConfusion h
  | cons c t ih =>
    intro p rem h
    rw [findSep_cons] at h
    cases hs : sepAfter (c :: t) with
    | some rem2 =>
      rw [hs] at h
      simp only [Option.some.injEq, Prod.mk.injEq] at h
      obtain ⟨rfl, rfl⟩ := h
      exact sepAfter_length_lt hs
    | none =>
      rw [hs] at h
      cases hf : findSep t with
      | some pr =>
        obtain ⟨p2, rem2⟩ := pr
        rw [hf] at h
        simp only [Option.some.injEq, Prod.mk.injEq] at h
        obtain ⟨rfl, rfl⟩ := h
        have := ih hf
        simp only [List.length_cons]
        omega
      | none =>
        rw [hf] at h
        exact Option.noConfusion h

theorem splitOnSepsF_succ (f : Nat) (l : List Char) :
    splitOnSepsF (f + 1) l =
      match findSep l with
      | none => [l]
      | some (p, rem) => p :: splitOnSepsF f rem := rfl

/-- Fuel insensitivity: any fuel larger than the list length gives the same
answer (each step strictly shrinks the list). -/
theorem splitOnSepsF_ge :
    ∀ (f1 f2 : Nat) (l : List Char), l.length < f1 → l.length < f2 →
      splitOnSepsF f1 l = splitOnSepsF f2 l := by
  intro f1
  induction f1 with
  | zero => intro f2 l h1 _; omega
  | succ f ih =>
    intro f2 l h1 h2
    cases f2 with
    | zero => omega
    | succ g =>
      rw [splitOnSepsF_succ, splitOnSepsF_succ]
      cases hf : findSep l with
      | none => rfl
      | some pr =>
        obtain ⟨p, rem⟩ := pr
        have hlt : rem.length < l.length := findSep_length_lt hf
        show p :: splitOnSepsF f rem = p :: splitOnSepsF g rem
        rw [ih g rem (by omega) (by omega)]

theorem splitOnSeps_step {l p rem : List Char} (h : findSep l = some (p, rem)) :
    splitOnSeps l = p :: splitOnSeps rem := by
  unfold splitOnSeps
  rw [splitOnSepsF_succ, h]
  have hlt : rem.length < l.length := findSep_length_lt h
  exact congrArg (p :: ·) (splitOnSepsF_ge l.length (rem.length + 1) rem (by omega) (by omega))

theorem splitOnSeps_last {l : List Char} (h : findSep l = none) :
    splitOnSeps l = [l] := by
  unfold splitOnSeps
  rw [splitOnSepsF_succ, h]

theorem varRepVal_length_lt {v rem : List Char} (h : varRepVal v = some rem) :
    rem.length < v.length := by
  unfold varRepVal at h
  by_cases h1 : nonSpaceRun v = []
  · rw [if_pos h1] at h; exact Option.noConfusion h
  · rw [if_neg h1] at h
    by_cases h2 : (v.drop (nonSpaceRun v).length).takeWhile isJsSpace = []
    · rw [if_pos h2] at h; exact Option.noConfusion h
    · rw [if_neg h2] at h
      obtain rfl := Option.some.inj h
      have hA : (v.drop (nonSpaceRun v).length).length =
          v.length - (nonSpaceRun v).length := List.length_drop _ _
      have hB :
          ((v.drop (nonSpaceRun v).length).drop
            ((v.drop (nonSpaceRun v).length).takeWhile isJsSpace).length).length =
          (v.drop (nonSpaceRun v).length).length -
            ((v.drop (nonSpaceRun v).length).takeWhile isJsSpace).length :=
        List.length_drop _ _
      have hnv : 1 ≤ (nonSpaceRun v).length := by
        cases hq : nonSpaceRun v with
        | nil => exact absurd hq h1
        | cons q qs => simp
      have hnvle : (nonSpaceRun v).length ≤ v.length :=
        (List.takeWhile_sublist _).length_le
      have hsp : 1 ≤ ((v.drop (nonSpaceRun v).length).takeWhile isJsSpace).length := by
        cases hq : (v.drop (nonSpaceRun v).length).takeWhile isJsSpace with
        | nil => exact absurd hq h2
        | cons q qs => simp
      omega

theorem varRep_length_lt {l rem : List Char} (h : varRep l = some rem) :
    rem.length < l.length := by
  unfold varRep at h
  by_cases h1 : wordRun l = []
  · rw [if_pos h1] at h; exact Option.noConfusion h
  · rw [if_neg h1] at h
    by_cases h2 : strHasPre ['='] (l.drop (wordRun l).length) = true
    · rw [if_pos h2] at h
      have h3 := varRepVal_length_lt h
      have h4 : ((l.drop (wordRun l).length).drop 1).length =
          (l.drop (wordRun l).length).length - 1 := List.length_drop _ _
      have h5 : (l.drop (wordRun l).length).length = l.length - (wordRun l).length :=
        List.length_drop _ _
      have h6 : 1 ≤ (wordRun l).length := by
        cases hq : wordRun l with
        | nil => exact absurd hq h1
        | cons q qs => simp
      have h7 : (wordRun l).length ≤ l.length := (List.takeWhile_sublist _).length_le
      omega
    · rw [if_neg h2] at h; exact Option.noConfusion h

theorem pgrepFilterCwd_some (env : SysEnv) (pids : List String) (c : String) :
    pgrepFilterCwd env pids (some c) =
      if pids.filter (cwdKeep env c) ≠ [] then pids.filter (cwdKeep env c)
      else [] := rfl

theorem killStrat2_error (env : SysEnv) (fuel : Nat) (entry : Entry) (e : String)
    (evs : List Ev) : killStrat2 env fuel entry (.error e, evs) = (.error e, evs) := rfl

theorem killStrat2_true (env : SysEnv) (fuel : Nat) (entry : Entry) (evs : List Ev) :
    killStrat2 env fuel entry (.ok true, evs) = (.ok true, evs) := rfl

theorem killStrat2_false (env : SysEnv) (fuel : Nat) (entry : Entry) (evs : List Ev) :
    killStrat2 env fuel entry (.ok false, evs) =
      match parsePort env entry.url with
      | some port =>
        if port ≠ 0 ∧ port ≠ 80 ∧ port ≠ 443 then
          (.ok (killByPort env fuel port).1, evs ++ (killByPort env fuel port).2)
        else (.ok false, evs)
      | none => (.ok false, evs) := rfl

theorem signaledPids_nil : signaledPids [] = [] := rfl

theorem signaledPids_append (a b : List Ev) :
    signaledPids (a ++ b) = signaledPids a ++ signaledPids b := by
  simp [signaledPids, List.filterMap_append]

theorem signaledPids_probe (p : String) (rest : List Ev) :
    signaledPids (Ev.probe p :: rest) = signaledPids rest := by
  simp [signaledPids, List.filterMap_cons]

theorem signaledPids_sig (t : List String) (rest : List Ev) :
    signaledPids (Ev.sig t :: rest) = t ++ signaledPids rest := by
  simp [signaledPids, List.filterMap_cons]

theorem signaledPids_portKill (p : Nat) (rest : List Ev) :
    signaledPids (Ev.portKill p :: rest) = signaledPids rest := by
  simp [signaledPids, List.filterMap_cons]

theorem probeList_nil : probeList [] = [] := rfl

theorem probeList_append (a b : List Ev) :
    probeList (a ++ b) = probeList a ++ probeList b := by
  simp [probeList, List.filterMap_append]

theorem probeList_probe (p : String) (rest : List Ev) :
    probeList (Ev.probe p :: rest) = p :: probeList rest := by
  simp [probeList, List.filterMap_cons]

theorem probeList_sig (t : List String) (rest : List Ev) :
    probeList (Ev.sig t :: rest) = probeList rest := by
  simp [probeList, List.filterMap_cons]

theorem probeList_portKill (p : Nat) (rest : List Ev) :
    probeList (Ev.portKill p :: rest) = probeList rest := by
  simp [probeList, List.filterMap_cons]

/-- Membership after the deduplicating insertion fold used by `Set`s. -/
theorem mem_foldl_insert :
    ∀ (l acc : List String) (x : String),
      x ∈ l.foldl (fun a y => if y ∈ a then a else a ++ [y]) acc →
        x ∈ acc ∨ x ∈ l := by
  intro l
  induction l with
  | nil => intro acc x h; exact Or.inl h
  | cons y ys ih =>
    intro acc x h
    simp only [List.foldl_cons] at h
    rcases ih _ x h with h1 | h1
    · by_cases hy : y ∈ acc
      · rw [if_pos hy] at h1; exact Or.inl h1
      · rw [if_neg hy] at h1
        rcases List.mem_append.mp h1 with h2 | h2
        · exact Or.inl h2
        · simp only [List.mem_singleton] at h2
          subst h2
          exact Or.inr (List.mem_cons_self _ _)
    · exact Or.inr (List.mem_cons_of_mem _ h1)

/-- Everything `collectTargets` collects passed the own-pid check. -/
theorem collectTargets_not_own (env : SysEnv) (fuel : Nat) (own : List Nat)
    (pids : List String) :
    ∀ x ∈ collectTargets env fuel own pids, inOwn own x = false := by
  unfold collectTargets
  suffices h : ∀ (ps acc : List String), (∀ x ∈ acc, inOwn own x = false) →
      ∀ x ∈ ps.foldl
        (fun acc pid =>
          if inOwn own pid then acc
          else
            (pid :: (getDescendants env fuel pid).filter
              (fun c => ¬ inOwn own c)).foldl
              (fun a x => if x ∈ a then a else a ++ [x]) acc)
        acc, inOwn own x = false by
    intro x hx
    exact h pids [] (by simp) x hx
  intro ps
  induction ps with
  | nil => intro acc hacc x hx; exact hacc x hx
  | cons p pr ih =>
    intro acc hacc x hx
    simp only [List.foldl_cons] at hx
    refine ih _ ?_ x hx
    intro z hz
    by_cases hop : inOwn own p = true
    · rw [if_pos hop] at hz
      exact hacc z hz
    · rw [if_neg hop] at hz
      rcases mem_foldl_insert
          (p :: (getDescendants env fuel p).filter (fun c => ¬ inOwn own c)) acc z hz
        with h1 | h1
      · exact hacc z h1
      · rcases List.mem_cons.mp h1 with h2 | h2
        · subst h2; exact Bool.eq_false_iff.mpr hop
        · simpa using (List.mem_filter.mp h2).2

/-- Every pid in a `killSafePids` termination batch fails the own-pid
membership test. -/
theorem killSafePids_sig_not_own (env : SysEnv) (fuel : Nat) (pids : List String) :
    ∀ s ∈ signaledPids (killSafePids env fuel pids).2,
      inOwn (getOwnPids env) s = false := by
  unfold killSafePids
  by_cases ht : collectTargets env fuel (getOwnPids env) pids ≠ []
  · rw [if_pos ht]
    intro s hs
    refine collectTargets_not_own env fuel _ pids s ?_
    cases hexec : env.exec
        ("kill " ++ joinSep " " (collectTargets env fuel (getOwnPids env) pids)) with
    | ok o =>
      rw [hexec] at hs
      simpa [signaledPids, List.filterMap_cons] using hs
    | error e =>
      rw [hexec] at hs
      simpa [signaledPids, List.filterMap_cons] using hs
  · rw [if_neg ht]
    intro s hs
    exact absurd hs (by simp [signaledPids])

theorem pgrepWithCwd_events (env : SysEnv) (pattern : String) (cwd : Option String) :
    (pgrepWithCwd env pattern cwd).2 = [Ev.probe pattern] := rfl

theorem commandSegEvs_sigs (env : SysEnv) (cmd : String) (cwd : Option String) :
    signaledPids (commandSegEvs env cmd cwd) = [] := by
  unfold commandSegEvs
  induction splitCommandSegments cmd with
  | nil => simp [signaledPids]
  | cons p ps ih =>
    rw [List.map_cons, List.flatten_cons, pgrepWithCwd_events, signaledPids_append,
      ih, List.append_nil]
    rfl

/-- Every pid a `killByCommand` run signals fails the own-pid test. -/
theorem killByCommand_sig_not_own (env : SysEnv) (fuel : Nat) (cmd : String)
    (cwd : Option String) :
    ∀ s ∈ signaledPids (killByCommand env fuel cmd cwd).2,
      inOwn (getOwnPids env) s = false := by
  unfold killByCommand
  by_cases h1 : (pgrepWithCwd env cmd cwd).1 ≠ []
  · rw [if_pos h1]
    intro s hs
    rw [signaledPids_append, pgrepWithCwd_events] at hs
    rcases List.mem_append.mp hs with h | h
    · exact absurd h (by simp [signaledPids])
    · exact killSafePids_sig_not_own env fuel _ s h
  · rw [if_neg h1]
    by_cases h2 : splitCommandSegments cmd ≠ []
    · rw [if_pos h2]
      by_cases h3 : commandAllPids env cmd cwd ≠ []
      · rw [if_pos h3]
        intro s hs
        rw [signaledPids_append, signaledPids_append, pgrepWithCwd_events,
          commandSegEvs_sigs] at hs
        rcases List.mem_append.mp hs with h | h
        · rcases List.mem_append.mp h with h4 | h4
          · exact absurd h4 (by simp [signaledPids])
          · exact absurd h4 (by simp)
        · exact killSafePids_sig_not_own env fuel _ s h
      · rw [if_neg h3]
        intro s hs
        rw [signaledPids_append, pgrepWithCwd_events, commandSegEvs_sigs] at hs
        rcases List.mem_append.mp hs with h | h
        · exact absurd h (by simp [signaledPids])
        · exact absurd h (by simp)
    · rw [if_neg h2]
      intro s hs
      rw [pgrepWithCwd_events] at hs
      exact absurd hs (by simp [signaledPids])

/-- On non-Windows platforms every pid `killByPort` signals fails the own-pid
test (its signals all come from the safe-kill pipeline). -/
theorem killByPort_sig_not_own (env : SysEnv) (fuel : Nat) (port : Nat)
    (hw : env.platform ≠ Platform.win32) :
    ∀ s ∈ signaledPids (killByPort env fuel port).2,
      inOwn (getOwnPids env) s = false := by
  unfold killByPort
  rw [if_neg hw]
  intro s hs
  cases hexec : env.exec ("lsof -ti :" ++ toString port ++ " -sTCP:LISTEN") with
  | error e =>
    rw [hexec] at hs
    exact absurd hs (by simp [signaledPids])
  | ok out =>
    rw [hexec] at hs
    simp only [signaledPids_portKill] at hs
    exact killSafePids_sig_not_own env fuel _ s hs

/-- C10: `getOwnPids` always contains the tool's own process id, and its
parent id whenever one is present (`process.ppid` truthy), regardless of how
the `ps`-based ancestor walk fares — the two seeds are added before the
walk. -/
theorem c10_own_pids_seeded (env : SysEnv) :
    env.pid ∈ getOwnPids env ∧ (env.ppid ≠ 0 → env.ppid ∈ getOwnPids env) := by
  constructor
  · exact List.mem_cons_self _ _
  · intro h
    simp [getOwnPids, h]

/-- C10 witness: concrete instance with a present parent pid (the walk in
`envC1` fails at its first `ps` call, yet both seeds are present). -/
theorem c10_witness : envC1.pid ∈ getOwnPids envC1 ∧ envC1.ppid ∈ getOwnPids envC1 :=
  ⟨(c10_own_pids_seeded envC1).1, (c10_own_pids_seeded envC1).2 (by decide)⟩

/-- C5 counterexample: the claim says a process whose cwd merely shares the
hint as a string prefix (cwd `/application`, hint `/app`) is excluded; the
code keeps it, because the filter is a plain `startsWith` string-prefix
test. -/
theorem c5_counterexample :
    (pgrepWithCwd envC5 "webpack" (some "/app")).1 = ["300"] ∧
    getProcessCwd envC5 "300" = some "/application" ∧
    specHintOrSubdir "/app" "/application" = false := by
  refine ⟨?_, ?_, ?_⟩ <;> decide

/-- C5 amended: with a (truthy) working-directory hint, a matched pid is kept
iff the process's working directory string starts with the hint — a plain
string-prefix test, so `/application` is kept under hint `/app`. -/
theorem c5_cwd_filter_plain_starts_with (env : SysEnv) (pattern c pid : String)
    (hc : c ≠ "") :
    pid ∈ (pgrepWithCwd env pattern (some c)).1 ↔
      pid ∈ pgrepPids env pattern ∧ cwdKeep env c pid = true := by
  unfold pgrepWithCwd
  by_cases hp : pgrepPids env pattern = []
  · rw [if_pos hp, hp]
    simp
  · rw [if_neg hp]
    have ht : truthyStr (some c) = some c := by simp [truthyStr, hc]
    rw [ht, pgrepFilterCwd_some]
    by_cases hf : (pgrepPids env pattern).filter (cwdKeep env c) ≠ []
    · rw [if_pos hf]
      exact List.mem_filter
    · rw [if_neg hf]
      push_neg at hf
      constructor
      · intro h; exact absurd h (by simp)
      · intro ⟨h1, h2⟩
        have : pid ∈ (pgrepPids env pattern).filter (cwdKeep env c) :=
          List.mem_filter.mpr ⟨h1, h2⟩
        rw [hf] at this
        exact absurd this (by simp)

/-- C5 amended witness: pid 300 (cwd `/application`) is kept under hint
`/app`. -/
theorem c5_witness :
    ("/app" ≠ "" ∧ "300" ∈ pgrepPids envC5 "webpack" ∧
      cwdKeep envC5 "/app" "300" = true) ∧
    "300" ∈ (pgrepWithCwd envC5 "webpack" (some "/app")).1 :=
  ⟨⟨by decide, by decide, by decide⟩,
    (c5_cwd_filter_plain_starts_with envC5 "webpack" "/app" "300" (by decide)).mpr
      ⟨by decide, by decide⟩⟩

/-- C6: whenever the working-directory filter eliminates every pgrep match,
`pgrepWithCwd` returns the empty candidate list (never the unfiltered
matches), for every pattern and every truthy hint. -/
theorem c6_cwd_filter_empty_means_no_match (env : SysEnv) (pattern c : String)
    (hc : c ≠ "")
    (hall : ∀ pid ∈ pgrepPids env pattern, cwdKeep env c pid = false) :
    (pgrepWithCwd env pattern (some c)).1 = [] := by
  unfold pgrepWithCwd
  by_cases hp : pgrepPids env pattern = []
  · rw [if_pos hp]
  · rw [if_neg hp]
    have ht : truthyStr (some c) = some c := by simp [truthyStr, hc]
    rw [ht, pgrepFilterCwd_some]
    have hf : (pgrepPids env pattern).filter (cwdKeep env c) = [] :=
      List.filter_eq_nil_iff.mpr (by intro a ha; simp [hall a ha])
    rw [hf]
    simp

/-- C6 witness: in `envC6` the pattern matches pid 300 but its cwd
`/elsewhere` fails the `/app` hint, so the strategy yields no candidates. -/
theorem c6_witness :
    ("/app" ≠ "" ∧ pgrepPids envC6 "webpack" = ["300"] ∧
      cwdKeep envC6 "/app" "300" = false) ∧
    (pgrepWithCwd envC6 "webpack" (some "/app")).1 = [] :=
  ⟨⟨by decide, by decide, by decide⟩,
    c6_cwd_filter_empty_means_no_match envC6 "webpack" "/app" (by decide)
      (by intro pid hpid
          have : pid = "300" := by
            have h300 : pgrepPids envC6 "webpack" = ["300"] := by decide
            rw [h300] at hpid
            simpa using hpid
          rw [this]
          decide)⟩

theorem killSafePids_no_portKill (env : SysEnv) (fuel : Nat) (pids : List String)
    (p : Nat) : Ev.portKill p ∉ (killSafePids env fuel pids).2 := by
  unfold killSafePids
  by_cases ht : collectTargets env fuel (getOwnPids env) pids ≠ []
  · rw [if_pos ht]
    cases hexec : env.exec
        ("kill " ++ joinSep " " (collectTargets env fuel (getOwnPids env) pids)) with
    | ok o => simp
    | error e => simp
  · rw [if_neg ht]; simp

theorem commandSegEvs_no_portKill (env : SysEnv) (cmd : String) (cwd : Option String)
    (p : Nat) : Ev.portKill p ∉ commandSegEvs env cmd cwd := by
  unfold commandSegEvs
  induction splitCommandSegments cmd with
  | nil => simp
  | cons q qs ih =>
    rw [List.map_cons, List.flatten_cons, pgrepWithCwd_events]
    intro hmem
    rcases List.mem_append.mp hmem with h | h
    · simp at h
    · exact ih h

/-- `killByCommand` never enters the port strategy. -/
theorem killByCommand_no_portKill (env : SysEnv) (fuel : Nat) (cmd : String)
    (cwd : Option String) (p : Nat) :
    Ev.portKill p ∉ (killByCommand env fuel cmd cwd).2 := by
  unfold killByCommand
  by_cases h1 : (pgrepWithCwd env cmd cwd).1 ≠ []
  · rw [if_pos h1]
    intro hmem
    rcases List.mem_append.mp hmem with h | h
    · rw [pgrepWithCwd_events] at h; simp at h
    · exact killSafePids_no_portKill env fuel _ p h
  · rw [if_neg h1]
    by_cases h2 : splitCommandSegments cmd ≠ []
    · rw [if_pos h2]
      by_cases h3 : commandAllPids env cmd cwd ≠ []
      · rw [if_pos h3]
        intro hmem
        rcases List.mem_append.mp hmem with h | h
        · rcases List.mem_append.mp h with h4 | h4
          · rw [pgrepWithCwd_events] at h4; simp at h4
          · exact commandSegEvs_no_portKill env cmd cwd p h4
        · exact killSafePids_no_portKill env fuel _ p h
      · rw [if_neg h3]
        intro hmem
        rcases List.mem_append.mp hmem with h | h
        · rw [pgrepWithCwd_events] at h; simp at h
        · exact commandSegEvs_no_portKill env cmd cwd p h
    · rw [if_neg h2]
      rw [pgrepWithCwd_events]
      simp

/-- C3: whenever the URL resolves to port 80 or 443 (explicitly or by scheme
default), `killByPort` is never entered (no `portKill` event occurs in the
whole run); and for an https URL with no explicit port, if the command
strategy found nothing (or the platform is Windows, where it is skipped),
`kill` returns `false`. -/
theorem c3_reverse_proxy_ports_skipped :
    (∀ (env : SysEnv) (fuel : Nat) (entry : Entry) (p : Nat),
      (parsePort env entry.url = some 80 ∨ parsePort env entry.url = some 443) →
      Ev.portKill p ∉ (kill env fuel entry).2) ∧
    (∀ (env : SysEnv) (fuel : Nat) (entry : Entry),
      env.urlParse entry.url = some ⟨"https:", none⟩ →
      (env.platform = Platform.win32 ∨
        (killByCommand env fuel (parseStartCommand env entry.startCommand).cmd
          (parseStartCommand env entry.startCommand).cwd).1 = .ok false) →
      (kill env fuel entry).1 = .ok false) := by
  constructor
  · intro env fuel entry p hp hmem
    unfold kill at hmem
    by_cases hw : env.platform ≠ Platform.win32
    · rw [if_pos hw] at hmem
      have hno : ∀ q, Ev.portKill q ∉
          (killByCommand env fuel (parseStartCommand env entry.startCommand).cmd
            (parseStartCommand env entry.startCommand).cwd).2 :=
        fun q => killByCommand_no_portKill env fuel _ _ q
      set r := killByCommand env fuel (parseStartCommand env entry.startCommand).cmd
        (parseStartCommand env entry.startCommand).cwd with hr
      obtain ⟨rr, evs⟩ := r
      match rr with
      | .error e =>
        rw [killStrat2_error] at hmem
        exact hno p hmem
      | .ok true =>
        rw [killStrat2_true] at hmem
        exact hno p hmem
      | .ok false =>
        rw [killStrat2_false] at hmem
        rcases hp with h80 | h443
        · simp only [h80] at hmem
          rw [if_neg (by simp)] at hmem
          exact hno p hmem
        · simp only [h443] at hmem
          rw [if_neg (by simp)] at hmem
          exact hno p hmem
    · rw [if_neg hw] at hmem
      rw [killStrat2_false] at hmem
      rcases hp with h80 | h443
      · simp only [h80] at hmem
        rw [if_neg (by simp)] at hmem
        simp at hmem
      · simp only [h443] at hmem
        rw [if_neg (by simp)] at hmem
        simp at hmem
  · intro env fuel entry hurl hdis
    have hpp : parsePort env entry.url = some 443 := by
      unfold parsePort
      rw [hurl]
      rfl
    unfold kill
    by_cases hw : env.platform ≠ Platform.win32
    · rw [if_pos hw]
      rcases hdis with hwin | hok
      · exact absurd hwin hw
      · set r := killByCommand env fuel (parseStartCommand env entry.startCommand).cmd
          (parseStartCommand env entry.startCommand).cwd with hr
        obtain ⟨rr, evs⟩ := r
        simp only at hok
        subst hok
        rw [killStrat2_false]
        simp only [hpp]
        rw [if_neg (by simp)]
    · rw [if_neg hw]
      rw [killStrat2_false]
      simp only [hpp]
      rw [if_neg (by simp)]

/-- C3 witness: `https://app.local` (defaults to port 443) with no matching
process: no `portKill` event, and the overall result is `false`. -/
theorem c3_witness :
    Ev.portKill 443 ∉ (kill envC6 3 entryC3).2 ∧ (kill envC6 3 entryC3).1 = .ok false :=
  ⟨(c3_reverse_proxy_ports_skipped).1 envC6 3 entryC3 443 (Or.inr (by decide)),
    (c3_reverse_proxy_ports_skipped).2 envC6 3 entryC3 (by decide) (Or.inr rfl)⟩

/-- C4 counterexample: for `alpha && beta` with no full-command match, the set
passed to the safe-kill pipeline (and signaled) is the union `[200, 100]` of
the matches of BOTH segments — it equals the match set of no single candidate
pattern, refuting "probing stops at the first matching pattern". -/
theorem c4_counterexample :
    signaledPids (killByCommand envC4 3 "alpha && beta" none).2 = ["200", "100"] ∧
    ∀ p ∈ candidatePatterns "alpha && beta",
      (pgrepWithCwd envC4 p none).1 ≠ ["200", "100"] := by
  constructor
  · decide
  · decide

/-- C4 amended: the whole command is probed first and used exclusively if it
matches; otherwise the pids passed to the safe-kill pipeline are the
deduplicated union of the matches of ALL reversed segments (empty union:
the strategy reports `false`). -/
theorem c4_union_of_all_segments (env : SysEnv) (fuel : Nat) (cmd : String)
    (cwd : Option String) (hfull : (pgrepWithCwd env cmd cwd).1 = []) :
    (commandAllPids env cmd cwd ≠ [] →
      (killByCommand env fuel cmd cwd).1 =
        (killSafePids env fuel (jsSetDedup (commandAllPids env cmd cwd))).1) ∧
    (commandAllPids env cmd cwd = [] →
      (killByCommand env fuel cmd cwd).1 = .ok false) := by
  unfold killByCommand
  rw [if_neg (by simp [hfull])]
  by_cases h2 : splitCommandSegments cmd ≠ []
  · rw [if_pos h2]
    constructor
    · intro h3
      rw [if_pos h3]
    · intro h3
      rw [if_neg (by simp [h3])]
  · rw [if_neg h2]
    constructor
    · intro h3
      exfalso
      apply h3
      unfold commandAllPids
      rw [not_ne_iff.mp h2]
      simp
    · intro _
      rfl

/-- C4 amended witness: in `envC4` the union path is taken with the union of
both segments' pids. -/
theorem c4_witness :
    ((pgrepWithCwd envC4 "alpha && beta" none).1 = [] ∧
      commandAllPids envC4 "alpha && beta" none ≠ []) ∧
    (killByCommand envC4 3 "alpha && beta" none).1 =
      (killSafePids envC4 3
        (jsSetDedup (commandAllPids envC4 "alpha && beta" none))).1 :=
  ⟨⟨by decide, by decide⟩,
    (c4_union_of_all_segments envC4 3 "alpha && beta" none (by decide)).1 (by decide)⟩

/-- C1 (code bug): `kill` CAN reject.  In `envC1` the command pattern matches
pid 4242 but the batch `kill 4242` exec exits nonzero (the process died in
between, or belongs to another user); `killSafePids` does not catch that
rejection and it escapes `kill` — the promise does not resolve to `false`. -/
theorem c1_kill_rejects_when_kill_exec_fails :
    (kill envC1 4 entryC1).1 = Except.error "exec failed" ∧
    signaledPids (kill envC1 4 entryC1).2 = ["4242"] := by
  exact ⟨rfl, by decide⟩

/-- C2 counterexample: on the Windows port-based path no own-pid exclusion is
applied — in `envC2` the tool's own pid 1000 is listening on port 3000 and is
taskkilled. -/
theorem c2_counterexample :
    envC2.pid = 1000 ∧
    "1000" ∈ signaledPids (kill envC2 2 entryC2).2 ∧
    inOwn (getOwnPids envC2) "1000" = true := by
  refine ⟨rfl, ?_, ?_⟩ <;> decide

/-- C2 amended: on every NON-Windows platform branch (command-pattern
strategy and port-based strategy alike), no pid whose JS-numeric value lies
in the own-ancestry set is ever signaled; the Windows `taskkill` path applies
no such exclusion. -/
theorem c2_signals_exclude_own_tree (env : SysEnv) (fuel : Nat) (entry : Entry)
    (s : String) (hw : env.platform ≠ Platform.win32)
    (hs : s ∈ signaledPids (kill env fuel entry).2) :
    inOwn (getOwnPids env) s = false := by
  unfold kill at hs
  rw [if_pos hw] at hs
  set r := killByCommand env fuel (parseStartCommand env entry.startCommand).cmd
    (parseStartCommand env entry.startCommand).cwd with hr
  have hcmd : ∀ x ∈ signaledPids r.2, inOwn (getOwnPids env) x = false := by
    rw [hr]
    exact killByCommand_sig_not_own env fuel _ _
  obtain ⟨rr, evs⟩ := r
  match rr with
  | .error e =>
    rw [killStrat2_error] at hs
    exact hcmd s hs
  | .ok true =>
    rw [killStrat2_true] at hs
    exact hcmd s hs
  | .ok false =>
    rw [killStrat2_false] at hs
    cases hp : parsePort env entry.url with
    | none =>
      simp only [hp] at hs
      exact hcmd s hs
    | some port =>
      simp only [hp] at hs
      by_cases hcond : port ≠ 0 ∧ port ≠ 80 ∧ port ≠ 443
      · rw [if_pos hcond] at hs
        simp only [signaledPids_append] at hs
        rcases List.mem_append.mp hs with h | h
        · exact hcmd s h
        · exact killByPort_sig_not_own env fuel port hw s h
      · rw [if_neg hcond] at hs
        exact hcmd s hs

/-- C2 witness: a concrete Linux run in which pid 4242 is signaled and is
indeed outside the own-ancestry set. -/
theorem c2_witness :
    (envC1.platform ≠ Platform.win32 ∧
      "4242" ∈ signaledPids (kill envC1 4 entryC1).2) ∧
    inOwn (getOwnPids envC1) "4242" = false :=
  ⟨⟨by decide, by decide⟩,
    c2_signals_exclude_own_tree envC1 4 entryC1 "4242" (by decide) (by decide)⟩

theorem truthyStr_none : truthyStr none = none := rfl

/-- A whitespace-free string cannot match the `cd`-prefix regex (which
requires `cd` followed by at least one whitespace character). -/
theorem cdMatch_of_no_space (s : List Char) (h : ∀ c ∈ s, isJsSpace c = false) :
    cdMatch s = none := by
  unfold cdMatch
  by_cases h1 : strHasPre ['c', 'd'] s = true
  · rw [if_pos h1]
    have h2 : (s.drop 2).takeWhile isJsSpace = [] := by
      cases hd : s.drop 2 with
      | nil => simp
      | cons a t =>
        have ha : a ∈ s := by
          have : a ∈ s.drop 2 := by rw [hd]; exact List.mem_cons_self _ _
          exact List.mem_of_mem_drop this
        simp [List.takeWhile_cons, h a ha]
    rw [if_pos h2]
  · rw [if_neg h1]

theorem resolveCommand_none_of_fails (env : SysEnv) (s : String)
    (h2 : resolutionFails env s) : resolveCommand env s = none := by
  unfold resolveCommand
  unfold resolutionFails at h2
  cases hex : env.exec (typeQueryCmd env s) with
  | error e => simp only [hex]
  | ok out =>
    rw [hex] at h2
    simp only [hex]
    obtain ⟨ha, hb⟩ := h2
    rw [ha]
    by_cases hsf : hasSubstr (trimS out) "shell function" = true
    · rw [if_pos hsf]
      rcases hb with hb1 | hb2
      · exact absurd hsf (by simp [hb1])
      · cases hex2 : env.exec (whichQueryCmd env s) with
        | error e2 => simp only [hex2]
        | ok wout =>
          rw [hex2] at hb2
          simp only [hex2]
          rw [if_neg (by simp [hb2])]
    · rw [if_neg hsf]

/-- C9: for a bare single-word start command, every shell-resolution failure
(type query rejects; output names neither alias nor function; function-body
query rejects or has no usable line) makes `parseStartCommand` return the
original string unchanged as the literal command, with no directory hint —
and, being total, it never raises. -/
theorem c9_resolution_failure_preserves_command (env : SysEnv) (s : String)
    (h1 : isSingleToken s = true) (h2 : resolutionFails env s) :
    parseStartCommand env s = ⟨none, s⟩ := by
  have hns : ∀ c ∈ s.toList, isJsSpace c = false := by
    unfold isSingleToken at h1
    intro c hc
    have hall := Bool.and_elim_right h1
    have := List.all_eq_true.mp hall c hc
    simpa using this
  have hcd : cdMatch s.toList = none := cdMatch_of_no_space _ hns
  have hpc : parseCdPrefix s = ⟨none, s⟩ := by
    unfold parseCdPrefix
    rw [hcd]
  unfold parseStartCommand
  rw [hpc]
  show (match truthyStr none with
    | some _ => (⟨none, s⟩ : ParsedCmd)
    | none =>
      if env.platform ≠ Platform.win32 ∧ isSingleToken s then
        match resolveCommand env s with
        | some r => r
        | none => ⟨none, s⟩
      else ⟨none, s⟩) = ⟨none, s⟩
  rw [truthyStr_none]
  by_cases hw : env.platform = Platform.win32
  · rw [if_neg (by simp [hw])]
  · rw [if_pos ⟨hw, h1⟩]
    rw [resolveCommand_none_of_fails env s h2]

/-- C9 witness: with the shell unavailable, the bare token `serve` resolves
to itself with no hint. -/
theorem c9_witness :
    (isSingleToken "serve" = true ∧ resolutionFails envC9 "serve") ∧
    parseStartCommand envC9 "serve" = ⟨none, "serve"⟩ :=
  ⟨⟨by decide, by exact trivial⟩,
    c9_resolution_failure_preserves_command envC9 "serve" (by decide)
      (by exact trivial)⟩

theorem hasSubstrL_nil (n : List Char) : hasSubstrL n [] = strHasPre n [] := rfl

theorem hasSubstrL_cons (n : List Char) (c : Char) (t : List Char) :
    hasSubstrL n (c :: t) = (strHasPre n (c :: t) || hasSubstrL n t) := rfl

theorem hasSubstrL_of_pre {n l : List Char} (h : strHasPre n l = true) :
    hasSubstrL n l = true := by
  cases l with
  | nil => rw [hasSubstrL_nil]; exact h
  | cons c t => rw [hasSubstrL_cons, h]; rfl

theorem hasSubstrL_append_right {n l : List Char} (pre : List Char)
    (h : hasSubstrL n l = true) : hasSubstrL n (pre ++ l) = true := by
  induction pre with
  | nil => exact h
  | cons c pr ih =>
    rw [List.cons_append, hasSubstrL_cons, ih]
    simp

theorem hasSubstrL_of_suffix {n d l : List Char} (hp : strHasPre n d = true)
    (hs : d <:+ l) : hasSubstrL n l = true := by
  obtain ⟨pre, rfl⟩ := hs
  exact hasSubstrL_append_right pre (hasSubstrL_of_pre hp)

/-- A list with no `&&` substring and no `;` has no separator match at its
head position. -/
theorem sepAfter_none_of_no_substr (l : List Char)
    (hss : hasSubstrL ['&', '&'] l = false) (hsemi : ';' ∉ l) :
    sepAfter l = none := by
  unfold sepAfter
  by_cases h1 : strHasPre ['&', '&'] (l.dropWhile isJsSpace) = true
  · exact absurd (hasSubstrL_of_suffix h1 (List.dropWhile_suffix _)) (by simp [hss])
  · rw [if_neg h1]
    by_cases h2 : strHasPre [';'] (l.dropWhile isJsSpace) = true
    · exfalso
      cases hd : l.dropWhile isJsSpace with
      | nil => rw [hd] at h2; exact absurd h2 (by simp [strHasPre_cons_nil])
      | cons b bs =>
        rw [hd] at h2
        rw [strHasPre_cons_cons] at h2
        have hbeq : b = ';' := (beq_iff_eq.mp (Bool.and_elim_left h2)).symm
        have hbm : b ∈ l := (List.dropWhile_sublist _).mem (by rw [hd]; exact List.mem_cons_self _ _)
        rw [hbeq] at hbm
        exact hsemi hbm
    · rw [if_neg h2]

theorem findSep_none_of_no_substr :
    ∀ (l : List Char), hasSubstrL ['&', '&'] l = false → (';' ∉ l) →
      findSep l = none := by
  intro l
  induction l with
  | nil => intro _ _; rfl
  | cons c t ih =>
    intro hss hsemi
    rw [findSep_cons, sepAfter_none_of_no_substr (c :: t) hss hsemi]
    have hsst : hasSubstrL ['&', '&'] t = false := by
      rw [hasSubstrL_cons] at hss
      exact (Bool.or_eq_false_iff.mp hss).2
    have hsemit : ';' ∉ t := fun h => hsemi (List.mem_cons_of_mem _ h)
    rw [ih hsst hsemit]

theorem hasSubstrL_ampamp_eq_false {l : List Char} (h : ∀ c ∈ l, c ≠ '&') :
    hasSubstrL ['&', '&'] l = false := by
  induction l with
  | nil => rfl
  | cons c t ih =>
    rw [hasSubstrL_cons, strHasPre_cons_cons]
    have hc : ('&' == c) = false :=
      beq_eq_false_iff_ne.mpr (Ne.symm (h c (List.mem_cons_self _ _)))
    rw [hc]
    simp only [Bool.false_and, Bool.false_or]
    exact ih (fun x hx => h x (List.mem_cons_of_mem _ hx))

/-- A whitespace run followed by a separator matches the separator regex,
consuming the whitespace around it. -/
theorem sepAfter_succeeds (w sep rest : List Char)
    (hw : ∀ c ∈ w, isJsSpace c = true) (hsep : sep = ['&', '&'] ∨ sep = [';']) :
    sepAfter (w ++ (sep ++ rest)) = some (rest.dropWhile isJsSpace) := by
  unfold sepAfter
  have hdw : (w ++ (sep ++ rest)).dropWhile isJsSpace = sep ++ rest := by
    rw [List.dropWhile_append_of_pos hw]
    rcases hsep with h | h <;> subst h
    · simp only [List.cons_append, List.nil_append, List.dropWhile_cons]
      rw [if_neg (by decide)]
    · simp only [List.cons_append, List.nil_append, List.dropWhile_cons]
      rw [if_neg (by decide)]
  rw [hdw]
  rcases hsep with h | h <;> subst h
  · rw [if_pos (by simp [List.cons_append, strHasPre_cons_cons, strHasPre_nil])]
    simp
  · rw [if_neg (by simp [List.cons_append, strHasPre_cons_cons, strHasPre_cons_nil])]
    rw [if_pos (by simp [List.cons_append, strHasPre_cons_cons, strHasPre_nil])]
    simp

theorem dropWhile_ne_nil_of_mem {l : List Char} {c : Char} (hc : c ∈ l)
    (hns : isJsSpace c = false) : l.dropWhile isJsSpace ≠ [] := by
  intro h
  have := List.dropWhile_eq_nil_iff.mp h c hc
  rw [hns] at this
  exact Bool.noConfusion this

/-- The leftmost separator match in `seg ++ ws ++ sep ++ rest` sits exactly
after `seg`, when `seg` has no separator characters and does not end in
whitespace. -/
theorem findSep_seg :
    ∀ (a w sep rest : List Char),
      (∀ c ∈ a, c ≠ '&' ∧ c ≠ ';') →
      (∀ c, a.getLast? = some c → isJsSpace c = false) →
      (∀ c ∈ w, isJsSpace c = true) →
      (sep = ['&', '&'] ∨ sep = [';']) →
      findSep (a ++ (w ++ (sep ++ rest))) = some (a, rest.dropWhile isJsSpace) := by
  intro a
  induction a with
  | nil =>
    intro w sep rest _ _ hw hsep
    rw [List.nil_append]
    have hne : w ++ (sep ++ rest) ≠ [] := by
      rcases hsep with h | h <;> subst h <;> simp
    obtain ⟨c, t, hct⟩ := List.exists_cons_of_ne_nil hne
    have hsa := sepAfter_succeeds w sep rest hw hsep
    rw [hct] at hsa ⊢
    rw [findSep_cons, hsa]
  | cons x a' ih =>
    intro w sep rest ha hlast hw hsep
    have hgl : ∃ g, (x :: a').getLast? = some g := by
      cases hg : (x :: a').getLast? with
      | none => exact absurd (by simpa using hg) (by simp : (x :: a') ≠ [])
      | some g => exact ⟨g, rfl⟩
    obtain ⟨g, hg⟩ := hgl
    have hgns : isJsSpace g = false := hlast g hg
    have hgm : g ∈ x :: a' := List.mem_of_mem_getLast? hg
    have hne := dropWhile_ne_nil_of_mem hgm hgns
    obtain ⟨c0, r0, hc0⟩ := List.exists_cons_of_ne_nil hne
    have hc0m : c0 ∈ x :: a' :=
      (List.dropWhile_sublist _).mem (by rw [hc0]; exact List.mem_cons_self _ _)
    have hc0sep := ha c0 hc0m
    have hsanone : sepAfter (x :: (a' ++ (w ++ (sep ++ rest)))) = none := by
      unfold sepAfter
      have hdw : (x :: (a' ++ (w ++ (sep ++ rest)))).dropWhile isJsSpace =
          ((x :: a').dropWhile isJsSpace) ++ (w ++ (sep ++ rest)) := by
        rw [show x :: (a' ++ (w ++ (sep ++ rest))) =
            (x :: a') ++ (w ++ (sep ++ rest)) from rfl]
        rw [List.dropWhile_append, if_neg (by simpa using hne)]
      rw [hdw, hc0, List.cons_append]
      rw [if_neg (by rw [strHasPre_cons_cons]
                     rw [beq_eq_false_iff_ne.mpr (Ne.symm hc0sep.1)]
                     simp)]
      rw [if_neg (by rw [strHasPre_cons_cons]
                     rw [beq_eq_false_iff_ne.mpr (Ne.symm hc0sep.2)]
                     simp)]
    rw [show (x :: a') ++ (w ++ (sep ++ rest)) =
        x :: (a' ++ (w ++ (sep ++ rest))) from rfl]
    rw [findSep_cons, hsanone]
    have ih' := ih w sep rest
      (fun c hc => ha c (List.mem_cons_of_mem _ hc))
      (by intro c hc
          apply hlast
          cases a' with
          | nil => exact absurd hc (by simp)
          | cons y ys => rw [List.getLast?_cons_cons]; exact hc)
      hw hsep
    rw [ih']

theorem dropWhile_space_pass (w l : List Char) (hw : ∀ c ∈ w, isJsSpace c = true)
    (hl : ∀ c, l.head? = some c → isJsSpace c = false) :
    (w ++ l).dropWhile isJsSpace = l := by
  rw [List.dropWhile_append_of_pos hw]
  cases l with
  | nil => rfl
  | cons c t =>
    rw [List.dropWhile_cons, if_neg (by simp [hl c rfl])]

/-- The three-segment split. -/
theorem splitOnSeps_three (A B C w1 w2 w3 w4 s1 s2 : List Char)
    (hA : (∀ c ∈ A, c ≠ '&' ∧ c ≠ ';') ∧
      (∀ c, A.getLast? = some c → isJsSpace c = false))
    (hB : (∀ c ∈ B, c ≠ '&' ∧ c ≠ ';') ∧
      (∀ c, B.head? = some c → isJsSpace c = false) ∧
      (∀ c, B.getLast? = some c → isJsSpace c = false))
    (hC : (∀ c ∈ C, c ≠ '&' ∧ c ≠ ';') ∧
      (∀ c, C.head? = some c → isJsSpace c = false))
    (hw1 : ∀ c ∈ w1, isJsSpace c = true) (hw2 : ∀ c ∈ w2, isJsSpace c = true)
    (hw3 : ∀ c ∈ w3, isJsSpace c = true) (hw4 : ∀ c ∈ w4, isJsSpace c = true)
    (hs1 : s1 = ['&', '&'] ∨ s1 = [';']) (hs2 : s2 = ['&', '&'] ∨ s2 = [';'])
    (hBne : B ≠ []) (hCne : C ≠ []) :
    splitOnSeps (A ++ (w1 ++ (s1 ++ (w2 ++ (B ++ (w3 ++ (s2 ++ (w4 ++ C)))))))) =
      [A, B, C] := by
  have hf1 := findSep_seg A w1 s1 (w2 ++ (B ++ (w3 ++ (s2 ++ (w4 ++ C)))))
    hA.1 hA.2 hw1 hs1
  have hR1 : (w2 ++ (B ++ (w3 ++ (s2 ++ (w4 ++ C))))).dropWhile isJsSpace =
      B ++ (w3 ++ (s2 ++ (w4 ++ C))) := by
    apply dropWhile_space_pass _ _ hw2
    intro c hc
    cases B with
    | nil => exact absurd rfl hBne
    | cons b bs =>
      rw [List.cons_append] at hc
      have hcb : b = c := by simpa using hc
      subst hcb
      exact hB.2.1 b rfl
  rw [hR1] at hf1
  rw [splitOnSeps_step hf1]
  have hf2 := findSep_seg B w3 s2 (w4 ++ C) hB.1 hB.2.2 hw3 hs2
  have hR2 : (w4 ++ C).dropWhile isJsSpace = C :=
    dropWhile_space_pass _ _ hw4 hC.2
  rw [hR2] at hf2
  rw [splitOnSeps_step hf2]
  have hf3 : findSep C = none :=
    findSep_none_of_no_substr C
      (hasSubstrL_ampamp_eq_false (fun c hc => (hC.1 c hc).1))
      (fun h => (hC.1 ';' h).2 rfl)
  rw [splitOnSeps_last hf3]

theorem trimL_eq_self {l : List Char}
    (hh : ∀ c, l.head? = some c → isJsSpace c = false)
    (hl : ∀ c, l.getLast? = some c → isJsSpace c = false) : trimL l = l := by
  unfold trimL
  have h1 : l.dropWhile isJsSpace = l := by
    cases l with
    | nil => rfl
    | cons c t =>
      rw [List.dropWhile_cons, if_neg (by simp [hh c rfl])]
  rw [h1]
  have h2 : l.reverse.dropWhile isJsSpace = l.reverse := by
    cases hr : l.reverse with
    | nil => rfl
    | cons c t =>
      have hcl : l.getLast? = some c := by
        rw [← List.head?_reverse, hr]; rfl
      rw [List.dropWhile_cons, if_neg (by simp [hl c hcl])]
  rw [h2, List.reverse_reverse]

theorem killSafePids_probes (env : SysEnv) (fuel : Nat) (pids : List String) :
    probeList (killSafePids env fuel pids).2 = [] := by
  unfold killSafePids
  by_cases ht : collectTargets env fuel (getOwnPids env) pids ≠ []
  · rw [if_pos ht]
    cases hexec : env.exec
        ("kill " ++ joinSep " " (collectTargets env fuel (getOwnPids env) pids)) with
    | ok o => rfl
    | error e => rfl
  · rw [if_neg ht]; rfl

theorem commandSegEvs_probes (env : SysEnv) (cmd : String) (cwd : Option String) :
    probeList (commandSegEvs env cmd cwd) = splitCommandSegments cmd := by
  unfold commandSegEvs
  induction splitCommandSegments cmd with
  | nil => rfl
  | cons p ps ih =>
    rw [List.map_cons, List.flatten_cons, pgrepWithCwd_events]
    rw [show (([Ev.probe p] : List Ev) ++
        (ps.map fun q => (pgrepWithCwd env q cwd).2).flatten) =
        Ev.probe p :: (ps.map fun q => (pgrepWithCwd env q cwd).2).flatten from rfl]
    rw [probeList_probe, ih]

theorem toList_append (x y : String) : (x ++ y).toList = x.toList ++ y.toList :=
  String.data_append x y

theorem trimS_mk_eq_self {x : String} (hh : ∀ c, x.toList.head? = some c → isJsSpace c = false)
    (hl : ∀ c, x.toList.getLast? = some c → isJsSpace c = false) :
    trimS (String.mk x.toList) = x := by
  show String.mk (trimL (String.mk x.toList).toList) = x
  rw [show (String.mk x.toList).toList = x.toList from rfl]
  rw [trimL_eq_self hh hl]
  rfl

/-- C8: the candidate pattern list is always an initial-run of what the
command strategy probes; for `a && b ; c` (arbitrary whitespace around the
separators) it is exactly `[whole, c, b, a]`; and for a command with no
separator it is just `[whole]`. -/
theorem c8_candidate_pattern_order :
    (∀ (env : SysEnv) (fuel : Nat) (cmd : String) (cwd : Option String),
      ∃ rest, candidatePatterns cmd =
        probeList (killByCommand env fuel cmd cwd).2 ++ rest) ∧
    (∀ a w1 s1 w2 b w3 s2 w4 c : String,
      segChars a → segChars b → segChars c →
      spaceChars w1 → spaceChars w2 → spaceChars w3 → spaceChars w4 →
      (s1 = "&&" ∨ s1 = ";") → (s2 = "&&" ∨ s2 = ";") →
      candidatePatterns (a ++ w1 ++ s1 ++ w2 ++ b ++ w3 ++ s2 ++ w4 ++ c) =
        [a ++ w1 ++ s1 ++ w2 ++ b ++ w3 ++ s2 ++ w4 ++ c, c, b, a]) ∧
    (∀ cmd : String, hasSubstr cmd "&&" = false → ';' ∉ cmd.toList →
      candidatePatterns cmd = [cmd]) := by
  refine ⟨?_, ?_, ?_⟩
  · intro env fuel cmd cwd
    unfold candidatePatterns killByCommand
    by_cases h1 : (pgrepWithCwd env cmd cwd).1 ≠ []
    · rw [if_pos h1]
      refine ⟨splitCommandSegments cmd, ?_⟩
      show cmd :: splitCommandSegments cmd =
        probeList ((pgrepWithCwd env cmd cwd).2 ++
          (killSafePids env fuel (pgrepWithCwd env cmd cwd).1).2) ++
          splitCommandSegments cmd
      rw [probeList_append, pgrepWithCwd_events, killSafePids_probes,
        List.append_nil]
      rfl
    · rw [if_neg h1]
      by_cases h2 : splitCommandSegments cmd ≠ []
      · rw [if_pos h2]
        by_cases h3 : commandAllPids env cmd cwd ≠ []
        · rw [if_pos h3]
          refine ⟨[], ?_⟩
          show cmd :: splitCommandSegments cmd =
            probeList (((pgrepWithCwd env cmd cwd).2 ++ commandSegEvs env cmd cwd) ++
              (killSafePids env fuel (jsSetDedup (commandAllPids env cmd cwd))).2) ++ []
          rw [probeList_append, probeList_append, pgrepWithCwd_events,
            commandSegEvs_probes, killSafePids_probes, List.append_nil,
            List.append_nil]
          rfl
        · rw [if_neg h3]
          refine ⟨[], ?_⟩
          show cmd :: splitCommandSegments cmd =
            probeList ((pgrepWithCwd env cmd cwd).2 ++ commandSegEvs env cmd cwd) ++ []
          rw [probeList_append, pgrepWithCwd_events, commandSegEvs_probes,
            List.append_nil]
          rfl
      · rw [if_neg h2]
        refine ⟨[], ?_⟩
        show cmd :: splitCommandSegments cmd =
          probeList (pgrepWithCwd env cmd cwd).2 ++ []
        rw [pgrepWithCwd_events, List.append_nil, not_ne_iff.mp h2]
        rfl
  · intro a w1 s1 w2 b w3 s2 w4 c hca hcb hcc hw1 hw2 hw3 hw4 hs1 hs2
    have hs1' : s1.toList = ['&', '&'] ∨ s1.toList = [';'] := by
      rcases hs1 with h | h <;> subst h
      · exact Or.inl rfl
      · exact Or.inr rfl
    have hs2' : s2.toList = ['&', '&'] ∨ s2.toList = [';'] := by
      rcases hs2 with h | h <;> subst h
      · exact Or.inl rfl
      · exact Or.inr rfl
    have hT : (a ++ w1 ++ s1 ++ w2 ++ b ++ w3 ++ s2 ++ w4 ++ c).toList =
        a.toList ++ (w1.toList ++ (s1.toList ++ (w2.toList ++ (b.toList ++
          (w3.toList ++ (s2.toList ++ (w4.toList ++ c.toList))))))) := by
      simp only [toList_append, List.append_assoc]
    unfold candidatePatterns splitCommandSegments
    rw [hT]
    rw [splitOnSeps_three a.toList b.toList c.toList w1.toList w2.toList w3.toList
      w4.toList s1.toList s2.toList
      ⟨hca.2.1, hca.2.2.2⟩ ⟨hcb.2.1, hcb.2.2.1, hcb.2.2.2⟩ ⟨hcc.2.1, hcc.2.2.1⟩
      hw1 hw2 hw3 hw4 hs1' hs2' hcb.1 hcc.1]
    simp only [List.map_cons, List.map_nil]
    rw [trimS_mk_eq_self hca.2.2.1 hca.2.2.2, trimS_mk_eq_self hcb.2.2.1 hcb.2.2.2,
      trimS_mk_eq_self hcc.2.2.1 hcc.2.2.2]
    have hane : a ≠ "" := fun h => hca.1 (by rw [h]; rfl)
    have hbne : b ≠ "" := fun h => hcb.1 (by rw [h]; rfl)
    have hcne : c ≠ "" := fun h => hcc.1 (by rw [h]; rfl)
    have hfil : [a, b, c].filter (fun s => s ≠ "") = [a, b, c] := by
      simp [hane, hbne, hcne]
    rw [hfil]
    rw [if_neg (by simp)]
    rfl
  · intro cmd hss hsemi
    unfold candidatePatterns splitCommandSegments
    have hf : findSep cmd.toList = none :=
      findSep_none_of_no_substr _ hss hsemi
    rw [splitOnSeps_last hf]
    rw [if_pos ((List.length_filter_le _ _).trans (by simp))]

/-- C8 witness: the compound command
`bundle exec puma && npm run dev ; tail -f log` yields exactly the candidate
list `[whole, tail -f log, npm run dev, bundle exec puma]`; and for the
separator-free `npm run dev` the list is just the whole command. -/
theorem c8_witness :
    candidatePatterns
        ("bundle exec puma" ++ " " ++ "&&" ++ " " ++ "npm run dev" ++ " " ++ ";" ++
          " " ++ "tail -f log") =
      ["bundle exec puma" ++ " " ++ "&&" ++ " " ++ "npm run dev" ++ " " ++ ";" ++
          " " ++ "tail -f log", "tail -f log", "npm run dev", "bundle exec puma"] ∧
    candidatePatterns "npm run dev" = ["npm run dev"] :=
  ⟨(c8_candidate_pattern_order).2.1 "bundle exec puma" " " "&&" " " "npm run dev"
      " " ";" " " "tail -f log"
      ⟨by decide, by decide, by intro x h; injection h with h2; subst h2; decide,
        by intro x h; injection h with h2; subst h2; decide⟩
      ⟨by decide, by decide, by intro x h; injection h with h2; subst h2; decide,
        by intro x h; injection h with h2; subst h2; decide⟩
      ⟨by decide, by decide, by intro x h; injection h with h2; subst h2; decide,
        by intro x h; injection h with h2; subst h2; decide⟩
      (by intro x h; fin_cases h <;> decide) (by intro x h; fin_cases h <;> decide)
      (by intro x h; fin_cases h <;> decide) (by intro x h; fin_cases h <;> decide)
      (Or.inl rfl) (Or.inr rfl),
    (c8_candidate_pattern_order).2.2 "npm run dev" (by decide) (by decide)⟩

theorem trimL_all_space {l : List Char} (h : ∀ c ∈ l, isJsSpace c = true) :
    trimL l = [] := by
  unfold trimL
  rw [List.dropWhile_eq_nil_iff.mpr h]
  rfl

theorem trimL_dropWhile (l : List Char) :
    trimL (l.dropWhile isJsSpace) = trimL l := by
  unfold trimL
  rw [List.dropWhile_idempotent]

/-- The trailing `\s*(.+)$` always matches a nonempty, newline-free tail, and
the capture trims to the same thing as the tail. -/
theorem dotPlusEnd_of_noNL {w : List Char} (hne : w ≠ [])
    (hnl : ∀ c ∈ w, isDotNL c = false) :
    ∃ r, dotPlusEnd w = some r ∧ trimL r = trimL w := by
  unfold dotPlusEnd
  by_cases hdr : w.dropWhile isJsSpace = []
  · rw [if_pos hdr]
    have hall : ∀ c ∈ w, isJsSpace c = true := List.dropWhile_eq_nil_iff.mp hdr
    obtain ⟨g, hg⟩ : ∃ g, w.getLast? = some g := by
      cases hgl : w.getLast? with
      | none => exact absurd (by simpa using hgl) hne
      | some g => exact ⟨g, rfl⟩
    have hgm : g ∈ w := List.mem_of_mem_getLast? hg
    simp only [hg]
    rw [if_neg (by simp [hnl g hgm])]
    refine ⟨[g], rfl, ?_⟩
    rw [trimL_all_space (by
          intro c hc
          simp only [List.mem_singleton] at hc
          rw [hc]
          exact hall g hgm),
      trimL_all_space hall]
  · rw [if_neg hdr]
    have hanyf : (w.dropWhile isJsSpace).any isDotNL = false := by
      rw [List.any_eq_false]
      intro c hc
      simp [hnl c ((List.dropWhile_sublist _).mem hc)]
    rw [if_neg (by simp [hanyf])]
    exact ⟨w.dropWhile isJsSpace, rfl, trimL_dropWhile w⟩

theorem bareGo_succ (t : List Char) (k : Nat) :
    bareGo t (k + 1) =
      match sepCont (t.drop (k + 1)) with
      | some g2 => some (t.take (k + 1), g2)
      | none => bareGo t k := rfl

theorem sepCont_sp_amp (r : List Char) :
    sepCont (' ' :: ('&' :: ('&' :: r))) = dotPlusEnd r := rfl

theorem sepCont_sp_semi (r : List Char) :
    sepCont (' ' :: (';' :: r)) = dotPlusEnd r := rfl

/-- A quoted group-1 alternative succeeds on `q dir q` followed by a matching
separator continuation. -/
theorem quoteBranch_quoted (q : Char) (dir tail r : List Char)
    (hne : dir ≠ []) (hq : ∀ c ∈ dir, c ≠ q)
    (hcont : sepCont tail = some r) :
    quoteBranch q (q :: (dir ++ (q :: tail))) = some (q :: (dir ++ [q]), r) := by
  unfold quoteBranch
  rw [if_pos (by simp [strHasPre_cons_cons, strHasPre_nil])]
  rw [show (q :: (dir ++ (q :: tail))).drop 1 = dir ++ (q :: tail) from rfl]
  have htw : (dir ++ (q :: tail)).takeWhile (fun x => x ≠ q) = dir := by
    rw [List.takeWhile_append_of_pos (by intro a ha; simp [hq a ha])]
    rw [List.takeWhile_cons, if_neg (by simp), List.append_nil]
  rw [htw]
  rw [if_neg hne]
  rw [show (dir ++ (q :: tail)).drop dir.length = q :: tail from List.drop_left ..]
  rw [if_pos (by simp [strHasPre_cons_cons, strHasPre_nil])]
  rw [show (q :: tail).drop 1 = tail from rfl]
  rw [hcont]
  rfl

/-- A quoted group-1 alternative fails when the head is not its quote. -/
theorem quoteBranch_none (q : Char) (t : List Char)
    (h : ∀ c, t.head? = some c → c ≠ q) : quoteBranch q t = none := by
  unfold quoteBranch
  cases t with
  | nil => rw [if_neg (by simp [strHasPre_cons_nil])]
  | cons c u =>
    rw [if_neg (by
      rw [strHasPre_cons_cons, beq_eq_false_iff_ne.mpr (Ne.symm (h c rfl))]
      simp)]

/-- The `\S+` alternative captures exactly the whitespace-free `dir` when a
space and a matching separator continuation follow. -/
theorem bareBranch_seg (dir tail r : List Char)
    (hne : dir ≠ []) (hns : ∀ c ∈ dir, isJsSpace c = false)
    (hcont : sepCont (' ' :: tail) = some r) :
    bareBranch (dir ++ (' ' :: tail)) = some (dir, r) := by
  unfold bareBranch
  have hrun : (dir ++ (' ' :: tail)).takeWhile (fun c => ¬ isJsSpace c) = dir := by
    rw [List.takeWhile_append_of_pos (by intro a ha; simp [hns a ha])]
    rw [List.takeWhile_cons, if_neg (by decide), List.append_nil]
  rw [hrun]
  obtain ⟨m, hm⟩ : ∃ m, dir.length = m + 1 := by
    cases dir with
    | nil => exact absurd rfl hne
    | cons d dt => exact ⟨dt.length, rfl⟩
  rw [hm, bareGo_succ]
  rw [show (dir ++ (' ' :: tail)).drop (m + 1) = ' ' :: tail from by
    rw [← hm]; exact List.drop_left ..]
  rw [hcont]
  rw [show (dir ++ (' ' :: tail)).take (m + 1) = dir from by
    rw [← hm]; exact List.take_left ..]

/-- `cdTail` on a bare directory token. -/
theorem cdTail_bare (dir tail r : List Char)
    (hne : dir ≠ []) (hns : ∀ c ∈ dir, isJsSpace c = false)
    (hhead : ∀ c, dir.head? = some c → c ≠ dqChar ∧ c ≠ sqChar)
    (hcont : sepCont (' ' :: tail) = some r) :
    cdTail (dir ++ (' ' :: tail)) = some (dir, r) := by
  have hh : ∀ c, (dir ++ (' ' :: tail)).head? = some c →
      c ≠ dqChar ∧ c ≠ sqChar := by
    intro c hc
    cases dir with
    | nil => exact absurd rfl hne
    | cons d dt =>
      have : d = c := by simpa using hc
      subst this
      exact hhead d rfl
  unfold cdTail
  rw [show dqBranch (dir ++ (' ' :: tail)) = none from
    quoteBranch_none _ _ (fun c hc => (hh c hc).1)]
  rw [show sqBranch (dir ++ (' ' :: tail)) = none from
    quoteBranch_none _ _ (fun c hc => (hh c hc).2)]
  exact bareBranch_seg dir tail r hne hns hcont

/-- `cdMatch` after the literal `cd` and one space. -/
theorem cdMatch_cd_space (X : List Char) :
    cdMatch ('c' :: ('d' :: (' ' :: X))) = cdTail (X.dropWhile isJsSpace) := by
  unfold cdMatch
  rw [if_pos (by rfl)]
  rw [show ('c' :: ('d' :: (' ' :: X))).drop 2 = ' ' :: X from rfl]
  rw [if_neg (by
    rw [List.takeWhile_cons, if_pos (by decide)]
    simp)]
  rw [List.dropWhile_cons, if_pos (by decide)]

theorem stripQuotes_quoted (q : Char) (dir : List Char)
    (hq : q = sqChar ∨ q = dqChar) :
    stripQuotes (q :: (dir ++ [q])) = dir := by
  unfold stripQuotes stripLeadQuote stripTrailQuote
  rw [if_pos (by
    rcases hq with h | h <;> subst h
    · exact Or.inl (by simp [strHasPre_cons_cons, strHasPre_nil])
    · exact Or.inr (by simp [strHasPre_cons_cons, strHasPre_nil]))]
  rw [show (q :: (dir ++ [q])).drop 1 = dir ++ [q] from rfl]
  simp only [List.getLast?_concat]
  rw [if_pos (by rcases hq with h | h <;> subst h <;> simp)]
  exact List.dropLast_concat ..

theorem stripQuotes_id (l : List Char)
    (hh : ∀ c, l.head? = some c → c ≠ sqChar ∧ c ≠ dqChar)
    (hl : ∀ c, l.getLast? = some c → c ≠ sqChar ∧ c ≠ dqChar) :
    stripQuotes l = l := by
  unfold stripQuotes stripLeadQuote stripTrailQuote
  rw [if_neg (by
    cases l with
    | nil => simp [strHasPre_cons_nil]
    | cons c u =>
      have hc := hh c rfl
      simp only [strHasPre_cons_cons, strHasPre_nil, Bool.and_true, beq_iff_eq]
      rintro (h | h)
      · exact hc.1 h.symm
      · exact hc.2 h.symm)]
  cases hg : l.getLast? with
  | none => simp only [hg]
  | some c =>
    simp only [hg]
    rw [if_neg (not_or.mpr (hl c hg))]

theorem toList_ne_nil {s : String} (h : s ≠ "") : s.toList ≠ [] := fun hl =>
  h (by rw [← show String.mk s.toList = s from rfl, hl])

/-- C7: for every `cd <dir> && <rest>` / `cd <dir> ; <rest>` command (the
directory bare or single- or double-quoted), the resolver extracts `<dir>`
(quotes stripped) as the cwd hint and `<rest>` trimmed as the working
command; any string the regex does not match is passed through whole with no
hint. -/
theorem c7_cd_prefix_extraction :
    (∀ dir rest sep : String,
      (sep = "&&" ∨ sep = ";") → rest ≠ "" →
      (∀ ch ∈ rest.toList, isDotNL ch = false) →
      dir ≠ "" → (∀ ch ∈ dir.toList, ch ≠ dqChar) →
      parseCdPrefix ("cd " ++ String.mk [dqChar] ++ dir ++ String.mk [dqChar] ++
          " " ++ sep ++ rest) = ⟨some dir, trimS rest⟩) ∧
    (∀ dir rest sep : String,
      (sep = "&&" ∨ sep = ";") → rest ≠ "" →
      (∀ ch ∈ rest.toList, isDotNL ch = false) →
      dir ≠ "" → (∀ ch ∈ dir.toList, ch ≠ sqChar) →
      parseCdPrefix ("cd " ++ String.mk [sqChar] ++ dir ++ String.mk [sqChar] ++
          " " ++ sep ++ rest) = ⟨some dir, trimS rest⟩) ∧
    (∀ dir rest sep : String,
      (sep = "&&" ∨ sep = ";") → rest ≠ "" →
      (∀ ch ∈ rest.toList, isDotNL ch = false) →
      dir ≠ "" → (∀ ch ∈ dir.toList, isJsSpace ch = false) →
      (∀ ch, dir.toList.head? = some ch → ch ≠ dqChar ∧ ch ≠ sqChar) →
      (∀ ch, dir.toList.getLast? = some ch → ch ≠ dqChar ∧ ch ≠ sqChar) →
      parseCdPrefix ("cd " ++ dir ++ " " ++ sep ++ rest) = ⟨some dir, trimS rest⟩) ∧
    (∀ s : String, cdMatch s.toList = none → parseCdPrefix s = ⟨none, s⟩) := by
  have hsepCont : ∀ (sep rest : String) (r : List Char), (sep = "&&" ∨ sep = ";") →
      dotPlusEnd rest.toList = some r →
      sepCont (' ' :: (sep.toList ++ rest.toList)) = some r := by
    intro sep rest r hsp hdp
    rcases hsp with h | h <;> subst h
    · show sepCont (' ' :: ('&' :: ('&' :: rest.toList))) = some r
      rw [sepCont_sp_amp]
      exact hdp
    · show sepCont (' ' :: (';' :: rest.toList)) = some r
      rw [sepCont_sp_semi]
      exact hdp
  have quoted : ∀ (q : Char), (q = sqChar ∨ q = dqChar) →
      ∀ dir rest sep : String,
      (sep = "&&" ∨ sep = ";") → rest ≠ "" →
      (∀ ch ∈ rest.toList, isDotNL ch = false) →
      dir ≠ "" → (∀ ch ∈ dir.toList, ch ≠ q) →
      parseCdPrefix ("cd " ++ String.mk [q] ++ dir ++ String.mk [q] ++
          " " ++ sep ++ rest) = ⟨some dir, trimS rest⟩ := by
    intro q hqk dir rest sep hsp hrne hnl hdne hq
    obtain ⟨r, hdp, htr⟩ := dotPlusEnd_of_noNL (toList_ne_nil hrne) hnl
    have hsc := hsepCont sep rest r hsp hdp
    have hT : ("cd " ++ String.mk [q] ++ dir ++ String.mk [q] ++
        " " ++ sep ++ rest).toList =
        'c' :: ('d' :: (' ' :: (q :: (dir.toList ++
          (q :: (' ' :: (sep.toList ++ rest.toList))))))) := by
      simp only [toList_append, List.append_assoc]
      rfl
    have hqns : isJsSpace q = false := by
      rcases hqk with h | h <;> subst h <;> decide
    have hcd : cdMatch ("cd " ++ String.mk [q] ++ dir ++ String.mk [q] ++
        " " ++ sep ++ rest).toList =
        some (q :: (dir.toList ++ [q]), r) := by
      rw [hT, cdMatch_cd_space]
      rw [List.dropWhile_cons, if_neg (by simp [hqns])]
      have hqb := quoteBranch_quoted q dir.toList
        (' ' :: (sep.toList ++ rest.toList)) r (toList_ne_nil hdne) hq hsc
      unfold cdTail
      rcases hqk with h | h <;> subst h
      · rw [show dqBranch (sqChar :: (dir.toList ++
            (sqChar :: (' ' :: (sep.toList ++ rest.toList))))) = none from
          quoteBranch_none _ _ (by intro c hc; have : sqChar = c := by simpa using hc
                                   rw [← this]; decide)]
        rw [show sqBranch (sqChar :: (dir.toList ++
            (sqChar :: (' ' :: (sep.toList ++ rest.toList))))) =
            some (sqChar :: (dir.toList ++ [sqChar]), r) from hqb]
      · rw [show dqBranch (dqChar :: (dir.toList ++
            (dqChar :: (' ' :: (sep.toList ++ rest.toList))))) =
            some (dqChar :: (dir.toList ++ [dqChar]), r) from hqb]
    unfold parseCdPrefix
    rw [hcd]
    show ParsedCmd.mk (some (String.mk (stripQuotes (q :: (dir.toList ++ [q])))))
      (trimS (String.mk r)) = ⟨some dir, trimS rest⟩
    rw [stripQuotes_quoted q dir.toList hqk]
    have e2 : trimS (String.mk r) = trimS rest := by
      show String.mk (trimL (String.mk r).toList) = String.mk (trimL rest.toList)
      rw [show (String.mk r).toList = r from rfl, htr]
    rw [e2]
    rfl
  refine ⟨quoted dqChar (Or.inr rfl), quoted sqChar (Or.inl rfl), ?_, ?_⟩
  · intro dir rest sep hsp hrne hnl hdne hns hhead hlast
    obtain ⟨r, hdp, htr⟩ := dotPlusEnd_of_noNL (toList_ne_nil hrne) hnl
    have hsc := hsepCont sep rest r hsp hdp
    have hT : ("cd " ++ dir ++ " " ++ sep ++ rest).toList =
        'c' :: ('d' :: (' ' :: (dir.toList ++
          (' ' :: (sep.toList ++ rest.toList))))) := by
      simp only [toList_append, List.append_assoc]
      rfl
    have hcd : cdMatch ("cd " ++ dir ++ " " ++ sep ++ rest).toList =
        some (dir.toList, r) := by
      rw [hT, cdMatch_cd_space]
      have hdw : (dir.toList ++ (' ' :: (sep.toList ++ rest.toList))).dropWhile
          isJsSpace = dir.toList ++ (' ' :: (sep.toList ++ rest.toList)) := by
        cases hd : dir.toList with
        | nil => exact absurd hd (toList_ne_nil hdne)
        | cons d dt =>
          rw [List.cons_append, List.dropWhile_cons,
            if_neg (by simp [hns d (by rw [hd]; exact List.mem_cons_self _ _)])]
      rw [hdw]
      exact cdTail_bare dir.toList (sep.toList ++ rest.toList) r
        (toList_ne_nil hdne) hns hhead hsc
    unfold parseCdPrefix
    rw [hcd]
    show ParsedCmd.mk (some (String.mk (stripQuotes dir.toList)))
      (trimS (String.mk r)) = ⟨some dir, trimS rest⟩
    rw [stripQuotes_id dir.toList
      (fun c hc => ⟨(hhead c hc).2, (hhead c hc).1⟩)
      (fun c hc => ⟨(hlast c hc).2, (hlast c hc).1⟩)]
    have e2 : trimS (String.mk r) = trimS rest := by
      show String.mk (trimL (String.mk r).toList) = String.mk (trimL rest.toList)
      rw [show (String.mk r).toList = r from rfl, htr]
    rw [e2]
    rfl
  · intro s h
    unfold parseCdPrefix
    rw [h]

/-- C7 witness: `cd /app && npm run dev` resolves to hint `/app` and command
`npm run dev`; `cd "my app" ; serve .` resolves to hint `my app` (quotes
stripped); `npm start` is passed through whole. -/
theorem c7_witness :
    parseCdPrefix ("cd " ++ "/app" ++ " " ++ "&&" ++ " npm run dev") =
      ⟨some "/app", trimS " npm run dev"⟩ ∧
    parseCdPrefix ("cd " ++ String.mk [dqChar] ++ "my app" ++ String.mk [dqChar] ++
        " " ++ ";" ++ " serve .") = ⟨some "my app", trimS " serve ."⟩ ∧
    (cdMatch "npm start".toList = none ∧
      parseCdPrefix "npm start" = ⟨none, "npm start"⟩) :=
  ⟨(c7_cd_prefix_extraction).2.2.1 "/app" " npm run dev" "&&" (Or.inl rfl)
      (by decide) (by decide) (by decide) (by decide)
      (by intro x h; injection h with h2; subst h2; decide)
      (by intro x h; injection h with h2; subst h2; decide),
    (c7_cd_prefix_extraction).1 "my app" " serve ." ";" (Or.inr rfl)
      (by decide) (by decide) (by decide) (by decide),
    by decide,
    (c7_cd_prefix_extraction).2.2.2 "npm start" (by decide)⟩

end QuickServe
